import Mathlib

/-!
Verification development for the tf2_rs transform-buffer library.

The Rust sources are shallowly embedded as executable Lean definitions:

* timestamps: the repository stores instants either as u64 nanoseconds
  (transform_storage.rs, static_cache.rs, buffer_core.rs) or as chrono
  DateTime values (cache.rs).  Both are embedded as an integer count of
  nanoseconds since the epoch (Int).  The chrono comparison key used by
  cache.rs, the pair (-seconds, -subsecond_nanos) ordered lexicographically,
  orders instants exactly like the negated nanosecond count, so the key is
  embedded as the negated stamp.
* f64 vector and quaternion arithmetic is embedded over the rationals; the
  external nalgebra spherical interpolation (slerp) is not part of the
  repository and is taken as an explicit function parameter wherever the
  source calls it.
* fallible operations (indexing that may panic, loops whose fuel could in
  principle run out) return Option/Except; a returned none marks a control
  path the Rust program cannot take without panicking.
-/

namespace Tf2

/-- A 3-vector with rational coordinates, embedding nalgebra Vector3 of f64. -/
structure Vec3 where
  x : ℚ
  y : ℚ
  z : ℚ
deriving DecidableEq, Repr

/-- Componentwise vector addition. -/
def vadd (a b : Vec3) : Vec3 := ⟨a.x + b.x, a.y + b.y, a.z + b.z⟩

/-- Scalar multiplication of a vector. -/
def smul (c : ℚ) (v : Vec3) : Vec3 := ⟨c * v.x, c * v.y, c * v.z⟩

/-- The zero vector (Vector3::zeros). -/
def vzero : Vec3 := ⟨0, 0, 0⟩

/-- A quaternion with rational coefficients, embedding nalgebra quaternions of
f64.  nalgebra constructs Quaternion::new(w, x, y, z). -/
structure Quat where
  w : ℚ
  x : ℚ
  y : ℚ
  z : ℚ
deriving DecidableEq, Repr

/-- The identity quaternion (UnitQuaternion::identity). -/
def quatId : Quat := ⟨1, 0, 0, 0⟩

/-- Hamilton product of quaternions; embeds the nalgebra product of unit
quaternions, which multiplies the underlying quaternions. -/
def quatMul (a b : Quat) : Quat :=
  ⟨a.w * b.w - a.x * b.x - a.y * b.y - a.z * b.z,
   a.w * b.x + a.x * b.w + a.y * b.z - a.z * b.y,
   a.w * b.y - a.x * b.z + a.y * b.w + a.z * b.x,
   a.w * b.z + a.x * b.y - a.y * b.x + a.z * b.w⟩

/-- Quaternion conjugate; for a unit quaternion this is its inverse. -/
def quatConj (a : Quat) : Quat := ⟨a.w, -a.x, -a.y, -a.z⟩

/-- Rotation of a vector by a unit quaternion, q * (0, v) * conj q; embeds
nalgebra UnitQuaternion::transform_vector for unit quaternions. -/
def rotateVec (q : Quat) (v : Vec3) : Vec3 :=
  let p := quatMul (quatMul q ⟨0, v.x, v.y, v.z⟩) (quatConj q)
  ⟨p.x, p.y, p.z⟩

/-- TransformStorage (transform_storage.rs): a rigid transform from the parent
frame (frame_id) to the child frame (child_frame_id) at one instant. -/
structure TransformStorage where
  rotation : Quat
  translation : Vec3
  stamp : Int
  frame_id : ℕ
  child_frame_id : ℕ
deriving DecidableEq, Repr

namespace TransformStorage

/-- TransformStorage::identity - zero translation, identity rotation. -/
def identity (stamp : Int) (frame_id child_frame_id : ℕ) : TransformStorage :=
  { rotation := quatId, translation := vzero,
    stamp := stamp, frame_id := frame_id, child_frame_id := child_frame_id }

/-- impl ops::Mul for TransformStorage (transform_storage.rs).  The source
panics when no frame is common; that path is embedded as none.  The second
branch calls rhs.mul(self), whose own first branch is then taken (its guard
is exactly the second branch condition), so it is inlined. -/
def mul (a b : TransformStorage) : Option TransformStorage :=
  if a.frame_id = b.child_frame_id then
    some { rotation := quatMul a.rotation b.rotation,
           translation := vadd a.translation b.translation,
           stamp := a.stamp,
           frame_id := a.frame_id,
           child_frame_id := a.child_frame_id }
  else if a.child_frame_id = b.frame_id then
    some { rotation := quatMul b.rotation a.rotation,
           translation := vadd b.translation a.translation,
           stamp := b.stamp,
           frame_id := b.frame_id,
           child_frame_id := b.child_frame_id }
  else
    none

/-- TransformStorage::interpolate (transform_storage.rs).  The nalgebra slerp
on unit quaternions is an external collaborator and is passed in as slerp_fn;
the timestamp ratio is computed in f64 in the source, embedded as exact
rational arithmetic. -/
def interpolate (slerp_fn : Quat → Quat → ℚ → Quat)
    (first second : TransformStorage) (time : Int) : TransformStorage :=
  if first.stamp = second.stamp then first
  else
    let second_ratio : ℚ :=
      ((time : ℚ) - (first.stamp : ℚ)) / ((second.stamp : ℚ) - (first.stamp : ℚ))
    let first_ratio : ℚ := 1 - second_ratio
    { rotation := slerp_fn first.rotation second.rotation second_ratio,
      translation := vadd (smul first_ratio first.translation)
                          (smul second_ratio second.translation),
      stamp := time,
      frame_id := first.frame_id,
      child_frame_id := second.frame_id }

end TransformStorage

/-- Insertion of an element at a position in a list, embedding Vec::insert.
The caller checks the index bound (Vec::insert panics past the length). -/
def insert_at {α : Type} (i : ℕ) (v : α) (l : List α) : List α :=
  l.take i ++ v :: l.drop i

/-- Result of Rust slice::binary_search_by_key: Ok(i) when an element with
the key was found at i, Err(i) with the insertion position otherwise. -/
inductive BsearchResult where
  | found : ℕ → BsearchResult
  | notFound : ℕ → BsearchResult
deriving DecidableEq, Repr

/-- The loop of Rust slice::binary_search_by (the early-return form used by
the standard library): the window is [left, right), the probe is
left + size / 2, and the comparison elem.cmp(target) narrows the window.
A none marks fuel exhaustion or an out-of-range probe; both are proved
unreachable below. -/
def bsearch_loop (keys : List Int) (target : Int) :
    ℕ → ℕ → ℕ → Option BsearchResult
  | 0, _, _ => none
  | fuel + 1, left, right =>
    if left < right then
      let mid := left + (right - left) / 2
      match keys.get? mid with
      | none => none
      | some k =>
        if k < target then bsearch_loop keys target fuel (mid + 1) right
        else if target < k then bsearch_loop keys target fuel left mid
        else some (.found mid)
    else some (.notFound left)

/-- Rust slice::binary_search_by_key over a list of keys. -/
def bsearch (keys : List Int) (target : Int) : Option BsearchResult :=
  bsearch_loop keys target (keys.length + 1) 0 keys.length

/-- TF2Error (error.rs).  The extrapolation payloads are produced by the
source through a seconds conversion (time_to_sec); the embedding carries the
underlying instants in nanoseconds instead. -/
inductive TF2Error where
  | Unknown : TF2Error
  | Empty : TF2Error
  | MatchingFrameIDs : String → String → TF2Error
  | EmptyFrameID : String → String → TF2Error
  | UnknownFrameID : String → TF2Error
  | UnknownRelationBetweenFrames : ℕ → ℕ → TF2Error
  | SingleExtrapolationError : Int → Int → TF2Error
  | FutureExtrapolationError : Int → Int → TF2Error
  | PastExtrapolationError : Int → Int → TF2Error
  | PoisonedCache : TF2Error
deriving DecidableEq, Repr

instance {ε α : Type} [DecidableEq ε] [DecidableEq α] : DecidableEq (Except ε α) :=
  fun x y =>
    match x, y with
    | .error e, .error f => decidable_of_iff (e = f) (by simp)
    | .ok a, .ok b => decidable_of_iff (a = b) (by simp)
    | .error _, .ok _ => isFalse (by simp)
    | .ok _, .error _ => isFalse (by simp)

/-- TimeCache (cache.rs): the per-frame time-ordered history.  The chrono
Duration max_storage_time is embedded as its nanosecond count. -/
structure TimeCache where
  storage : List TransformStorage
  max_storage_time : Int
deriving DecidableEq, Repr

namespace TimeCache

/-- The chrono comparison key used by cache.rs binary searches:
(-seconds, -subsec_nanos) lexicographically, which orders instants like the
negated nanosecond count. -/
def stampKey (v : TransformStorage) : Int := -v.stamp

/-- TimeCache::get_latest_timestamp: the stamp of the newest (front) record. -/
def get_latest_timestamp (c : TimeCache) : Option Int :=
  c.storage.head?.map (fun tfs => tfs.stamp)

/-- TimeCache::get_oldest_timestamp: the stamp of the oldest (back) record. -/
def get_oldest_timestamp (c : TimeCache) : Option Int :=
  c.storage.getLast?.map (fun tfs => tfs.stamp)

/-- The backward duplicate scan of TimeCache::insert_data: starting at the
binary-search hit, walk toward the front while the stamp matches, comparing
full records; the loop breaks at index 0.  The index is used without a bound
check in the source, so an out-of-range index is a panic, embedded as none. -/
def backward_scan (storage : List TransformStorage) (nd : TransformStorage) :
    ℕ → Option Bool
  | 0 =>
    match storage.get? 0 with
    | none => none
    | some r => some (if r.stamp = nd.stamp then decide (r = nd) else false)
  | i + 1 =>
    match storage.get? (i + 1) with
    | none => none
    | some r =>
      if r.stamp = nd.stamp then
        if r = nd then some true else backward_scan storage nd i
      else some false

/-- The forward duplicate scan of TimeCache::insert_data.  The source
decrements the index (forward_idx -= 1) instead of incrementing it; at
index 0 the usize decrement wraps to 2^64 - 1, which fails the
forward_idx < len loop bound (a Vec length is below 2^64), so the loop
exits - embedded as the base case.  The loop bound is checked before the
element access, so the scan cannot go out of range. -/
def forward_scan (storage : List TransformStorage) (nd : TransformStorage) :
    ℕ → Bool
  | 0 =>
    match storage.get? 0 with
    | none => false
    | some r => if r.stamp = nd.stamp then decide (r = nd) else false
  | i + 1 =>
    match storage.get? (i + 1) with
    | none => false
    | some r =>
      if r.stamp = nd.stamp then
        if r = nd then true else forward_scan storage nd i
      else false

/-- The forward index walk of TimeCache::prune_list after an exact
binary-search hit: advance while the key at the index is at most the cut
key.  The bound is checked before the access, so the walk is total. -/
def prune_advance (keys : List Int) (cut_ts : Int) : ℕ → ℕ → ℕ
  | 0, idx => idx
  | fuel + 1, idx =>
    match keys.get? idx with
    | none => idx
    | some k => if k ≤ cut_ts then prune_advance keys cut_ts fuel (idx + 1) else idx

/-- TimeCache::prune_list: drop the records older than the acceptable window
ending at the newest stamp.  The cut key is the negated nanosecond count of
(newest stamp - max_storage_time). -/
def prune_list (c : TimeCache) : Option TimeCache :=
  match c.storage with
  | [] => some c
  | first :: _ =>
    let cut_ts : Int := -(first.stamp - c.max_storage_time)
    let keys := c.storage.map stampKey
    match bsearch keys cut_ts with
    | none => none
    | some r =>
      let idx : ℕ :=
        match r with
        | .found i => prune_advance keys cut_ts (keys.length + 1) (i + 1)
        | .notFound i => i
      if 0 < idx ∧ idx < c.storage.length then
        some { c with storage := c.storage.take idx }
      else some c

/-- TimeCache::insert_data: prune, binary-search the insertion point, scan
the equal-stamp neighborhood for an exact duplicate, and insert when none
was found.  Returns the flag together with the new cache state; none marks
a panic path (all panic paths are proved unreachable below). -/
def insert_data (c : TimeCache) (nd : TransformStorage) :
    Option (Bool × TimeCache) :=
  match prune_list c with
  | none => none
  | some c1 =>
    match bsearch (c1.storage.map stampKey) (stampKey nd) with
    | none => none
    | some (.found idx) =>
      match backward_scan c1.storage nd idx with
      | none => none
      | some got_back =>
        let got_match := got_back || forward_scan c1.storage nd (idx + 1)
        if got_match then some (false, c1)
        else if idx ≤ c1.storage.length then
          some (true, { c1 with storage := insert_at idx nd c1.storage })
        else none
    | some (.notFound idx) =>
      if idx ≤ c1.storage.length then
        some (true, { c1 with storage := insert_at idx nd c1.storage })
      else none

/-- TimeCache::interpolate (cache.rs): linear interpolation of the
translation and external slerp of the rotation, with the blend ratio from
the f64 seconds values, embedded as exact rational arithmetic on the
nanosecond stamps (the seconds conversion is a positive rescaling that
cancels in the ratio). -/
def interpolate (slerp_fn : Quat → Quat → ℚ → Quat)
    (first second : TransformStorage) (time : Int) : TransformStorage :=
  if first.stamp = second.stamp then first
  else
    let second_ratio : ℚ :=
      ((time : ℚ) - (first.stamp : ℚ)) / ((second.stamp : ℚ) - (first.stamp : ℚ))
    let first_ratio : ℚ := 1 - second_ratio
    { rotation := slerp_fn first.rotation second.rotation second_ratio,
      translation := vadd (smul first_ratio first.translation)
                          (smul second_ratio second.translation),
      stamp := time,
      frame_id := first.frame_id,
      child_frame_id := second.frame_id }

/-- TimeCache::find_closest: the lookup kernel of get_data, returning zero,
one or two records.  The unchecked accesses of the two-record branch are
embedded through get?, so the outer none marks a panic path. -/
def find_closest (c : TimeCache) (target_time : Int) :
    Option (Except TF2Error (List TransformStorage)) :=
  match c.storage with
  | [] => some (.ok [])
  | first :: rest =>
    if target_time = 0 then some (.ok [first])
    else if rest.length = 0 then
      if target_time = first.stamp then some (.ok [first])
      else some (.error (.SingleExtrapolationError target_time first.stamp))
    else
      let earliest := (first :: rest).getLast (by simp)
      if target_time = first.stamp then some (.ok [first])
      else if target_time = earliest.stamp then some (.ok [earliest])
      else if target_time < earliest.stamp then
        some (.error (.PastExtrapolationError target_time earliest.stamp))
      else if first.stamp < target_time then
        some (.error (.FutureExtrapolationError target_time first.stamp))
      else
        match bsearch ((first :: rest).map stampKey) (-target_time) with
        | none => none
        | some (.found idx) =>
          match (first :: rest).get? idx with
          | none => none
          | some r => some (.ok [r])
        | some (.notFound idx) =>
          -- idx - 1 is a usize subtraction in the source: at idx = 0 it
          -- would wrap and the access would panic, so that case is none
          if idx = 0 then none
          else
            match (first :: rest).get? idx, (first :: rest).get? (idx - 1) with
            | some lo, some hi => some (.ok [lo, hi])
            | _, _ => none

/-- TimeCache::get_data: dispatch on the number of records find_closest
returns; with two records, interpolate only when the parent frame ids
agree, returning the first (older) record otherwise. -/
def get_data (slerp_fn : Quat → Quat → ℚ → Quat) (c : TimeCache)
    (time : Int) : Option (Except TF2Error (Option TransformStorage)) :=
  match find_closest c time with
  | none => none
  | some (.error e) => some (.error e)
  | some (.ok []) => some (.ok none)
  | some (.ok [r]) => some (.ok (some r))
  | some (.ok [first, second]) =>
    if first.frame_id = second.frame_id then
      some (.ok (some (interpolate slerp_fn first second time)))
    else
      some (.ok (some first))
  | some (.ok _) => none

end TimeCache

/-- const MAX_GRAPH_DEPTH (buffer_core.rs). -/
def MAX_GRAPH_DEPTH : ℕ := 1000

/-- u64::MAX, used as the placeholder stamp of a fresh static cache and as
the initial running latest time of the bound walks. -/
def U64_MAX : Int := 2 ^ 64 - 1

/-- A frame's cache as stored in the buffer's frames vector: either a
StaticCache (static_cache.rs) or the u64-interface TimeCache. -/
inductive FrameCache where
  | staticCache : TransformStorage → FrameCache
  | timeCache : List TransformStorage → Int → FrameCache
deriving DecidableEq, Repr

namespace FrameCache

/-- get_latest_timestamp.  Static case from static_cache.rs: a static cache
reports no latest stamp.  Temporal case modelled from the spec: the
u64-interface TimeCache implementation is not under src (src cache.rs is
the chrono variant); latest_stamp is None iff empty, else the newest record
(index 0) stamp, matching the chrono TimeCache. -/
def get_latest_timestamp : FrameCache → Option Int
  | staticCache _ => none
  | timeCache s _ => s.head?.map (fun tfs => tfs.stamp)

/-- get_oldest_timestamp.  Static case from static_cache.rs (None).
Temporal case modelled from the spec: oldest_stamp is None iff empty, else
the last record's stamp, matching the chrono TimeCache. -/
def get_oldest_timestamp : FrameCache → Option Int
  | staticCache _ => none
  | timeCache s _ => s.getLast?.map (fun tfs => tfs.stamp)

/-- get_latest_timestamp_and_parent.  Static case from static_cache.rs:
Some((0, parent)).  Temporal case modelled from the spec:
latest_stamp_and_parent is an optional pair, None iff empty, else the
newest record's stamp and parent id (the u64-interface TimeCache is not
under src). -/
def get_latest_timestamp_and_parent : FrameCache → Option (Int × ℕ)
  | staticCache s => some (0, s.frame_id)
  | timeCache s _ => s.head?.map (fun tfs => (tfs.stamp, tfs.frame_id))

/-- get_data.  Static case from static_cache.rs: the held record restamped
with the query time.  Temporal case modelled from the spec: the
u64-interface TimeCache get (record or error, Empty on an empty cache) is
not under src; the chrono lookup logic of src cache.rs is reused and its
missing-record case is mapped to the Empty error per spec section 7.  The
final none arm covers the panic paths of that logic (unreachable for
well-formed caches). -/
def get_data (slerp_fn : Quat → Quat → ℚ → Quat) :
    FrameCache → Int → Except TF2Error TransformStorage
  | staticCache s, time => .ok { s with stamp := time }
  | timeCache s m, time =>
    match TimeCache.get_data slerp_fn { storage := s, max_storage_time := m } time with
    | some (.ok (some r)) => .ok r
    | some (.ok none) => .error .Empty
    | some (.error e) => .error e
    | none => .error .Unknown

/-- insert_data.  Static case from static_cache.rs: overwrite the slot.
Temporal case modelled from the spec through the chrono TimeCache insert of
src cache.rs (the u64-interface implementation is not under src); the
insert is proved total below, so the getD default is inert. -/
def insert_data : FrameCache → TransformStorage → FrameCache
  | staticCache _, nd => staticCache nd
  | timeCache s m, nd =>
    let c := (TimeCache.insert_data { storage := s, max_storage_time := m } nd).getD
      (false, { storage := s, max_storage_time := m })
    timeCache c.2.storage c.2.max_storage_time

/-- clear_list.  Static case from static_cache.rs: the body is empty, a
static cache keeps its record.  Temporal case from cache.rs: the storage is
emptied. -/
def clear_list : FrameCache → FrameCache
  | staticCache s => staticCache s
  | timeCache _ m => timeCache [] m

end FrameCache

/-- WalkEnding (transform_accumulator.rs). -/
inductive WalkEnding where
  | Identity | TargetParentOfSource | SourceParentOfTarget | FullPath
deriving DecidableEq, Repr

/-- Componentwise vector negation. -/
def vneg (v : Vec3) : Vec3 := ⟨-v.x, -v.y, -v.z⟩

/-- TransformAccumulator (transform_accumulator.rs). -/
structure TransformAccumulator where
  source_to_top_quat : Quat
  source_to_top_vec : Vec3
  target_to_top_quat : Quat
  target_to_top_vec : Vec3
deriving DecidableEq, Repr

namespace TransformAccumulator

/-- TransformAccumulator::new. -/
def new : TransformAccumulator := ⟨quatId, vzero, quatId, vzero⟩

/-- TransformAccumulator::accum: fold one record into the selected side.
st.rotate_vec rebuilds the same quaternion from its components and applies
it to the vector, embedded as rotateVec. -/
def accum (acc : TransformAccumulator) (source : Bool) (st : TransformStorage) :
    TransformAccumulator :=
  if source then
    { acc with
      source_to_top_vec := vadd (rotateVec st.rotation acc.source_to_top_vec) st.translation,
      source_to_top_quat := quatMul st.rotation acc.source_to_top_quat }
  else
    { acc with
      target_to_top_vec := vadd (rotateVec st.rotation acc.target_to_top_vec) st.translation,
      target_to_top_quat := quatMul st.rotation acc.target_to_top_quat }

/-- TransformAccumulator::finalize.  The nalgebra inverse of a unit
quaternion is its conjugate, embedded exactly. -/
def finalize (acc : TransformAccumulator) (ending : WalkEnding) : Vec3 × Quat :=
  match ending with
  | .Identity => (vzero, quatId)
  | .TargetParentOfSource => (acc.source_to_top_vec, acc.source_to_top_quat)
  | .SourceParentOfTarget =>
    let inv_target_quat := quatConj acc.target_to_top_quat
    let inv_target_vec := rotateVec inv_target_quat (vneg acc.target_to_top_vec)
    (inv_target_vec, inv_target_quat)
  | .FullPath =>
    let inv_target_quat := quatConj acc.target_to_top_quat
    let inv_target_vec := rotateVec inv_target_quat (vneg acc.target_to_top_vec)
    (vadd (rotateVec inv_target_quat acc.source_to_top_vec) inv_target_vec,
     quatMul inv_target_quat acc.source_to_top_quat)

end TransformAccumulator

/-- Lookup in an association list, embedding HashMap / HashSet queries
(iteration order is irrelevant to every embedded use). -/
def map_get {α β : Type} [BEq α] (l : List (α × β)) (k : α) : Option β :=
  (l.find? (fun p => p.1 == k)).map Prod.snd

/-- In-place update of one list position, embedding Vec::get_mut followed by
a write; out of range the list is unchanged (the single source call site
unwraps an index it has just interned, so it is in range there). -/
def list_modify {α : Type} (f : α → α) : ℕ → List α → List α
  | _, [] => []
  | 0, x :: xs => f x :: xs
  | n + 1, x :: xs => x :: list_modify f n xs

/-- Iterator max with a default, embedding values().map(..).max().unwrap_or(d). -/
def list_max_or (d : Int) : List Int → Int
  | [] => d
  | x :: xs => xs.foldl max x

/-- Iterator min with a default, embedding values().map(..).min().unwrap_or(d). -/
def list_min_or (d : Int) : List Int → Int
  | [] => d
  | x :: xs => xs.foldl min x

/-- Outcome of the source-to-root loop of get_common_time_bounds: either the
whole function returned early (target met, a missing frame, or the depth
cap), or the loop ran to the root and control falls through to the
target-side loop with the recorded per-frame path intervals. -/
inductive CtbSourceResult where
  | finished : Option (Int × Int) → CtbSourceResult
  | fellThrough : List (ℕ × Int × Int × ℕ) → CtbSourceResult
deriving DecidableEq, Repr

/-- The source-to-root loop of BufferCore::get_common_time_bounds.  The fuel
counts the remaining permitted iterations: the source increments loop_depth
after each hop and returns None once it exceeds MAX_GRAPH_DEPTH, so fuel
MAX_GRAPH_DEPTH + 1 at entry is exact.  Each visited frame records the
interval of the path BEFORE its own cache is folded in, as in the source. -/
def ctb_source_walk (frames : List FrameCache) (target_id : ℕ) :
    ℕ → ℕ → List (ℕ × Int × Int × ℕ) → Int → Int → CtbSourceResult
  | 0, _, _, _, _ => .finished none
  | fuel + 1, frame_id, seen, path_oldest, path_latest =>
    if frame_id = 0 then .fellThrough seen
    else
      match frames.get? frame_id with
      | none => .finished none
      | some cache =>
        let lp := (cache.get_latest_timestamp_and_parent).getD (path_latest, 0)
        let frame_oldest := (cache.get_oldest_timestamp).getD 0
        if frame_id = target_id then
          .finished (some
            (max path_oldest (list_max_or path_oldest (seen.map (fun e => e.2.1))),
             min path_latest (list_min_or path_latest (seen.map (fun e => e.2.2.1)))))
        else
          ctb_source_walk frames target_id fuel lp.2
            ((frame_id, path_oldest, path_latest, lp.2) :: seen)
            (max path_oldest frame_oldest) (min path_latest lp.1)

/-- The target-to-root loop of BufferCore::get_common_time_bounds: stop as
soon as a frame recorded by the source loop is met and intersect the two
path intervals; None past the depth cap, at a missing frame, or at the
root. -/
def ctb_target_walk (frames : List FrameCache) (seen : List (ℕ × Int × Int × ℕ)) :
    ℕ → ℕ → Int → Int → Option (Int × Int)
  | 0, _, _, _ => none
  | fuel + 1, frame_id, path_oldest, path_latest =>
    if frame_id = 0 then none
    else
      match map_get seen frame_id with
      | some v => some (max path_oldest v.1, min path_latest v.2.1)
      | none =>
        match frames.get? frame_id with
        | none => none
        | some cache =>
          let lp := (cache.get_latest_timestamp_and_parent).getD (path_latest, 0)
          let frame_oldest := (cache.get_oldest_timestamp).getD 0
          ctb_target_walk frames seen fuel lp.2
            (max path_oldest frame_oldest) (min path_latest lp.1)

/-- BufferCore::get_common_time_bounds. -/
def get_common_time_bounds (frames : List FrameCache)
    (target_id source_id : ℕ) : Option (Int × Int) :=
  if target_id = 0 ∨ source_id = 0 then none
  else if target_id = source_id then
    match frames.get? target_id with
    | none => none
    | some cache =>
      cache.get_latest_timestamp.bind (fun x =>
        cache.get_oldest_timestamp.map (fun old => (old, x)))
  else
    match ctb_source_walk frames target_id (MAX_GRAPH_DEPTH + 1) source_id [] 0 U64_MAX with
    | .finished r => r
    | .fellThrough seen =>
      ctb_target_walk frames seen (MAX_GRAPH_DEPTH + 1) target_id 0 U64_MAX

/-- Outcome of the source-to-root loop of get_closest_shared_ancestor. -/
inductive GcsaSourceResult where
  | finished : Option ℕ → GcsaSourceResult
  | fellThrough : List ℕ → GcsaSourceResult
deriving DecidableEq, Repr

/-- The source-to-root loop of BufferCore::get_closest_shared_ancestor,
with the same fuel discipline as the bound walk. -/
def gcsa_source_walk (frames : List FrameCache) (target_id : ℕ) :
    ℕ → ℕ → List ℕ → GcsaSourceResult
  | 0, _, _ => .finished none
  | fuel + 1, frame_id, visited =>
    if frame_id = 0 then .fellThrough visited
    else
      match frames.get? frame_id with
      | none => .finished none
      | some cache =>
        let frame_parent := ((cache.get_latest_timestamp_and_parent).map Prod.snd).getD 0
        if frame_id = target_id then .finished (some frame_id)
        else gcsa_source_walk frames target_id fuel frame_parent (frame_id :: visited)

/-- The target-to-root loop of BufferCore::get_closest_shared_ancestor. -/
def gcsa_target_walk (frames : List FrameCache) (visited : List ℕ) :
    ℕ → ℕ → Option ℕ
  | 0, _ => none
  | fuel + 1, frame_id =>
    if frame_id = 0 then none
    else if visited.contains frame_id then some frame_id
    else
      match frames.get? frame_id with
      | none => none
      | some cache =>
        gcsa_target_walk frames visited fuel
          (((cache.get_latest_timestamp_and_parent).map Prod.snd).getD 0)

/-- BufferCore::get_closest_shared_ancestor. -/
def get_closest_shared_ancestor (frames : List FrameCache)
    (target_id source_id : ℕ) : Option ℕ :=
  if target_id = 0 ∨ source_id = 0 then none
  else if target_id = source_id then some source_id
  else
    match gcsa_source_walk frames target_id (MAX_GRAPH_DEPTH + 1) source_id [] with
    | .finished r => r
    | .fellThrough visited =>
      gcsa_target_walk frames visited (MAX_GRAPH_DEPTH + 1) target_id

/-- BufferCore (buffer_core.rs): the frames vector, the name/id bimap, the
per-frame authority map, and the retention window. -/
structure BufferCore where
  frames_ : List FrameCache
  frame_to_id : List (String × ℕ)
  id_to_frame : List String
  frame_authority : List (ℕ × String)
  cache_time_ns : Int
deriving DecidableEq, Repr

/-- The input contract of set_transform (trait TransformStamped).  The wire
rotation [f64; 4] in (x, y, z, w) order is embedded as the quaternion it
denotes: TransformStorage::new reorders it into (w, x, y, z) and the unit
normalization of a unit input is the identity. -/
structure TransformStamped where
  stamp : Int
  frame_id : String
  child_frame_id : String
  translation : Vec3
  rotation : Quat
deriving DecidableEq, Repr

namespace BufferCore

/-- str::trim_start_matches with the pattern character: drop every leading
occurrence. -/
def strip_slashes (s : String) : String :=
  String.mk (s.data.dropWhile (fun c => c == '/'))

/-- BufferCore::new: the reserved root at id 0 with a static identity cache. -/
def new (cache_time_ns : Int) : BufferCore :=
  { frames_ := [.staticCache
      { rotation := quatId, translation := vzero,
        stamp := 0, frame_id := 0, child_frame_id := 0 }],
    frame_to_id := [("NO_PARENT", 0)],
    id_to_frame := ["NO_PARENT"],
    frame_authority := [],
    cache_time_ns := cache_time_ns }

/-- BufferCore::get_or_insert_new_frame. -/
def get_or_insert_new_frame (bc : BufferCore) (frame_id : String)
    (is_static : Bool) : ℕ × BufferCore :=
  let frame_id := strip_slashes frame_id
  match map_get bc.frame_to_id frame_id with
  | some r => (r, bc)
  | none =>
    let new_id := bc.frames_.length
    let cache : FrameCache :=
      if is_static then .staticCache (TransformStorage.identity U64_MAX 0 new_id)
      else .timeCache [] bc.cache_time_ns
    (new_id,
     { bc with
       frames_ := bc.frames_ ++ [cache],
       frame_to_id := (frame_id, new_id) :: bc.frame_to_id,
       id_to_frame := bc.id_to_frame ++ [frame_id] })

/-- BufferCore::set_transform: validate the stripped names, intern both,
insert the record into the child frame's cache and record the authority. -/
def set_transform (bc : BufferCore) (transform : TransformStamped)
    (authority : String) (is_static : Bool) : Except TF2Error Unit × BufferCore :=
  let child_frame_id := strip_slashes transform.child_frame_id
  let frame_id := strip_slashes transform.frame_id
  if child_frame_id = frame_id then
    (.error (.MatchingFrameIDs authority child_frame_id), bc)
  else if child_frame_id = "" then
    (.error (.EmptyFrameID authority "child_frame_id"), bc)
  else if frame_id = "" then
    (.error (.EmptyFrameID authority "frame_id"), bc)
  else
    let p1 := get_or_insert_new_frame bc frame_id is_static
    let p2 := get_or_insert_new_frame p1.2 child_frame_id is_static
    let record : TransformStorage :=
      { rotation := transform.rotation, translation := transform.translation,
        stamp := transform.stamp, frame_id := p1.1, child_frame_id := p2.1 }
    (.ok (),
     { p2.2 with
       frames_ := list_modify (fun c => c.insert_data record) p2.1 p2.2.frames_,
       frame_authority := (p2.1, authority) :: p2.2.frame_authority })

/-- BufferCore::clear: clear_list on every cache from index 1 on; index 0
(the reserved root) is skipped. -/
def clear (bc : BufferCore) : BufferCore :=
  { bc with
    frames_ :=
      match bc.frames_ with
      | [] => []
      | r :: rest => r :: rest.map FrameCache.clear_list }

/-- One side of the chain-walk loop in BufferCore::walk_to_top_parent: hop
toward the shared ancestor reading each frame's cache at the query time and
folding the record into the accumulator.  The source loop is unbounded; the
fuel marks executions the embedding does not model (none marks exhaustion,
reached by no claim below). -/
def wttp_loop (slerp_fn : Quat → Quat → ℚ → Quat) (frames : List FrameCache)
    (time : Int) (parent_frame : ℕ) :
    ℕ → ℕ → TransformAccumulator → Bool → Option (Except TF2Error TransformAccumulator)
  | 0, _, _, _ => none
  | fuel + 1, frame_id, acc, src =>
    if frame_id = parent_frame then some (.ok acc)
    else
      match frames.get? frame_id with
      | none => some (.error (.UnknownFrameID (toString frame_id)))
      | some cache =>
        match FrameCache.get_data slerp_fn cache time with
        | .error e => some (.error e)
        | .ok tf =>
          wttp_loop slerp_fn frames time parent_frame fuel tf.frame_id
            (acc.accum src tf) src

/-- BufferCore::walk_to_top_parent. -/
def walk_to_top_parent (slerp_fn : Quat → Quat → ℚ → Quat) (bc : BufferCore)
    (time : Int) (target_id source_id : ℕ) :
    Option (Except TF2Error TransformStorage) :=
  if source_id = target_id then
    some (.ok (TransformStorage.identity time target_id source_id))
  else
    let rtime : Except TF2Error Int :=
      if time = 0 then
        match get_common_time_bounds bc.frames_ target_id source_id with
        | none => .error (.UnknownRelationBetweenFrames target_id source_id)
        | some b => .ok b.2
      else .ok time
    match rtime with
    | .error e => some (.error e)
    | .ok time =>
      match get_closest_shared_ancestor bc.frames_ target_id source_id with
      | none => some (.error (.UnknownRelationBetweenFrames target_id source_id))
      | some parent_frame =>
        match wttp_loop slerp_fn bc.frames_ time parent_frame
            (MAX_GRAPH_DEPTH + 1) source_id TransformAccumulator.new true with
        | none => none
        | some (.error e) => some (.error e)
        | some (.ok acc1) =>
          match wttp_loop slerp_fn bc.frames_ time parent_frame
              (MAX_GRAPH_DEPTH + 1) target_id acc1 false with
          | none => none
          | some (.error e) => some (.error e)
          | some (.ok acc2) =>
            let fin :=
              if parent_frame = target_id then acc2.finalize .TargetParentOfSource
              else if parent_frame = source_id then acc2.finalize .SourceParentOfTarget
              else acc2.finalize .FullPath
            some (.ok { rotation := fin.2, translation := fin.1, stamp := time,
                        frame_id := target_id, child_frame_id := source_id })

/-- BufferCore::lookup_transform.  The same-frame branch unwraps the frames
vector at the target id; a missing index there is a panic, embedded as
none. -/
def lookup_transform (slerp_fn : Quat → Quat → ℚ → Quat) (bc : BufferCore)
    (target_frame source_frame : String) (time : Int) :
    Option (Except TF2Error TransformStorage) :=
  match map_get bc.frame_to_id target_frame with
  | none => some (.error (.UnknownFrameID target_frame))
  | some target_id =>
    if target_frame = source_frame then
      match bc.frames_.get? target_id with
      | none => none
      | some cache =>
        let stamp := if time = 0 then (cache.get_latest_timestamp).getD 0 else time
        some (.ok (TransformStorage.identity stamp target_id target_id))
    else
      match map_get bc.frame_to_id source_frame with
      | none => some (.error (.UnknownFrameID source_frame))
      | some source_id => walk_to_top_parent slerp_fn bc time target_id source_id

end BufferCore

/-! ### The cache ordering invariant and concrete instances used in the
theorems below. -/

/-- The storage ordering invariant of the temporal cache: stamps are
non-increasing from front (newest) to back (oldest). -/
def stampsDescending (l : List TransformStorage) : Prop :=
  l.Pairwise (fun a b => b.stamp ≤ a.stamp)

instance (l : List TransformStorage) : Decidable (stampsDescending l) :=
  inferInstanceAs (Decidable (l.Pairwise _))

/-- A stand-in for the external slerp collaborator; every property proved
below about rotation-independent fields holds for all slerp functions, this
concrete one is used to close witnesses and counterexamples. -/
def slerp_const : Quat → Quat → ℚ → Quat := fun q _ _ => q

/-- A half-turn about the z axis: a unit quaternion with rational
coefficients. -/
def zHalfTurn : Quat := ⟨0, 0, 0, 1⟩

/-- C1 input X: rotation a half-turn about z, zero translation, mapping
parent 1 to child 2. -/
def c1X : TransformStorage :=
  { rotation := zHalfTurn, translation := vzero, stamp := 7,
    frame_id := 1, child_frame_id := 2 }

/-- C1 input Y: identity rotation, translation (1,0,0), mapping parent 3 to
child 1, so that X.parent = Y.child. -/
def c1Y : TransformStorage :=
  { rotation := quatId, translation := ⟨1, 0, 0⟩, stamp := 3,
    frame_id := 3, child_frame_id := 1 }

/-- C8 input a: stamp 0, parent 2, child 9. -/
def c8a : TransformStorage :=
  { rotation := quatId, translation := vzero, stamp := 0,
    frame_id := 2, child_frame_id := 9 }

/-- C8 input b: stamp 2, the same parent 2, child 7. -/
def c8b : TransformStorage :=
  { rotation := quatId, translation := ⟨4, 0, 0⟩, stamp := 2,
    frame_id := 2, child_frame_id := 7 }

/-- C3 newer record: stamp 20, parent 5. -/
def c3hi : TransformStorage :=
  { rotation := quatId, translation := ⟨1, 0, 0⟩, stamp := 20,
    frame_id := 5, child_frame_id := 0 }

/-- C3 older record: stamp 10, parent 4 (reparented relative to c3hi). -/
def c3lo : TransformStorage :=
  { rotation := quatId, translation := vzero, stamp := 10,
    frame_id := 4, child_frame_id := 0 }

/-- C3 cache holding the reparented adjacent pair. -/
def c3cache : TimeCache := { storage := [c3hi, c3lo], max_storage_time := 100 }

/-- C3 witness pair: same parent 4 on both sides. -/
def c3whi : TransformStorage :=
  { rotation := quatId, translation := ⟨1, 0, 0⟩, stamp := 20,
    frame_id := 4, child_frame_id := 0 }

/-- C3 witness cache with an interpolable pair. -/
def c3wcache : TimeCache := { storage := [c3whi, c3lo], max_storage_time := 100 }

/-- A plain record at the given stamp whose translation x coordinate tells
the records apart. -/
def plainRec (st : Int) (x : ℚ) : TransformStorage :=
  { rotation := quatId, translation := ⟨x, 0, 0⟩, stamp := st,
    frame_id := 1, child_frame_id := 0 }

/-- Run one insert and keep the cache (insert_data is total, the default is
inert). -/
def runInsert (c : TimeCache) (r : TransformStorage) : TimeCache :=
  ((TimeCache.insert_data c r).getD (false, c)).2

/-- C5 retention scenario: insert stamp 0 then stamp 100 into an empty cache
with a 10 ns window. -/
def c5retention : TimeCache :=
  runInsert (runInsert { storage := [], max_storage_time := 10 } (plainRec 0 0))
    (plainRec 100 1)

/-- C5 duplicate scenario: five pairwise distinct records, all at stamp 5. -/
def c5dup : TimeCache :=
  runInsert (runInsert (runInsert (runInsert
    (runInsert { storage := [], max_storage_time := 100 } (plainRec 5 0))
      (plainRec 5 1)) (plainRec 5 2)) (plainRec 5 3)) (plainRec 5 4)

/-- C2 first ingested transform: a -> b, declared static, stamp 1. -/
def c2tfStatic : TransformStamped :=
  { stamp := 1, frame_id := "a", child_frame_id := "b",
    translation := vzero, rotation := quatId }

/-- C2 second ingested transform: b -> c, dynamic, stamp 5. -/
def c2tfDynamic : TransformStamped :=
  { stamp := 5, frame_id := "b", child_frame_id := "c",
    translation := vzero, rotation := quatId }

/-- C2 buffer: a -> b static, b -> c dynamic; ids a = 1, b = 2, c = 3. -/
def c2buffer : BufferCore :=
  (BufferCore.set_transform
    (BufferCore.set_transform (BufferCore.new 10) c2tfStatic "auth" true).2
    c2tfDynamic "auth" false).2

/-- C9 buffer before clear: one static edge a -> b, so that frame b (id 2)
holds a static cache with the ingested record. -/
def c9buffer : BufferCore :=
  (BufferCore.set_transform (BufferCore.new 10) c2tfStatic "auth" true).2

/-- The record that set_transform stores for the a -> b edge of c9buffer. -/
def c9rec : TransformStorage :=
  { rotation := quatId, translation := vzero, stamp := 1,
    frame_id := 1, child_frame_id := 2 }

/-- C7 input with both names empty after stripping. -/
def c7both : TransformStamped :=
  { stamp := 0, frame_id := "/", child_frame_id := "",
    translation := vzero, rotation := quatId }

/-- C6 chain record for frame i: the edge from parent c(i-1) into child ci,
stamped 1. -/
def chainRec (i : ℕ) : TransformStorage :=
  { rotation := quatId, translation := vzero, stamp := 1,
    frame_id := i - 1, child_frame_id := i }

/-- The caches of n consecutive chain frames starting at frame id base. -/
def chainTail : ℕ → ℕ → List FrameCache
  | _, 0 => []
  | base, n + 1 => FrameCache.timeCache [chainRec base] 10 :: chainTail (base + 1) n

/-- C6 frames vector: the root static cache at 0, the empty temporal cache
of c1 at 1 (c1 is only ever a parent), and for each i from 2 to 1002 the
temporal cache of ci holding the edge c(i-1) -> ci: a parent-to-child chain
of 1001 edges. -/
def chainFrames : List FrameCache :=
  FrameCache.staticCache
      { rotation := quatId, translation := vzero, stamp := 0,
        frame_id := 0, child_frame_id := 0 } ::
    FrameCache.timeCache [] 10 ::
    chainTail 2 1001

/-- C6 name map: every frame of the chain; a hash map has no order, the two
queried names are placed in front. -/
def chainNames : List (String × ℕ) :=
  ("NO_PARENT", 0) :: ("c1", 1) :: ("c1002", 1002) ::
    (List.range 1000).map (fun k => ("c" ++ toString (k + 2), k + 2))

/-- C6 buffer holding the 1001-edge chain c1 -> c2 -> ... -> c1002. -/
def chainBuffer : BufferCore :=
  { frames_ := chainFrames,
    frame_to_id := chainNames,
    id_to_frame := "NO_PARENT" :: (List.range 1002).map (fun k => "c" ++ toString (k + 1)),
    frame_authority := [],
    cache_time_ns := 10 }

/-! ### Concrete evaluations: counterexamples and code-bug witnesses. -/

/-- C1: evaluation at the failing input.  With X.parent = Y.child the
composition operator returns rotation X.r * Y.r as claimed, but its
translation is the plain sum X.t + Y.t; the claimed rigid-body translation
X.t + X.r * Y.t differs at this input (the half-turn sends (1,0,0) to
(-1,0,0)). -/
theorem mul_translation_not_rotated_at_failing_input :
    TransformStorage.mul c1X c1Y =
      some { rotation := quatMul c1X.rotation c1Y.rotation,
             translation := vadd c1X.translation c1Y.translation,
             stamp := 7, frame_id := 1, child_frame_id := 2 } ∧
    vadd c1X.translation (rotateVec c1X.rotation c1Y.translation) ≠
      vadd c1X.translation c1Y.translation := by
  constructor
  · rfl
  · simp only [c1X, c1Y, vadd, rotateVec, quatMul, quatConj, vzero, zHalfTurn,
      quatId, Vec3.mk.injEq]
    norm_num

/-- C8 counterexample: at a concrete interpolation input satisfying the
claim's precondition (a.stamp ≤ t ≤ b.stamp, equal parent ids), the result
child frame id is b's parent id (2), not the id inherited from a (9), so
the claim as stated is false. -/
theorem interpolate_child_id_not_inherited :
    c8a.stamp ≤ 1 ∧ (1 : Int) ≤ c8b.stamp ∧ c8a.frame_id = c8b.frame_id ∧
    (TransformStorage.interpolate slerp_const c8a c8b 1).child_frame_id = 2 ∧
    c8a.child_frame_id = 9 := by decide

/-- C4 counterexample: a get on an empty cache returns Ok(None); it does
not yield the Empty error the claim states. -/
theorem empty_cache_get_is_ok_none :
    TimeCache.get_data slerp_const { storage := [], max_storage_time := 10 } 5 =
      some (.ok none) ∧
    TimeCache.get_data slerp_const { storage := [], max_storage_time := 10 } 5 ≠
      some (.error .Empty) := by decide

/-- C3 counterexample: a query strictly between an adjacent reparented pair
returns the older record c3lo unchanged, not the newer record c3hi the
claim states. -/
theorem reparented_get_returns_older :
    c3cache.storage = [c3hi, c3lo] ∧
    c3lo.stamp < 15 ∧ (15 : Int) < c3hi.stamp ∧
    c3hi.frame_id ≠ c3lo.frame_id ∧
    TimeCache.get_data slerp_const c3cache 15 = some (.ok (some c3lo)) ∧
    c3lo ≠ c3hi := by decide

/-- C5 counterexample.  Retention: inserting stamp 0 then stamp 100 into an
empty cache with a 10 ns window leaves both records, violating the claimed
bound (pruning uses the pre-insert newest stamp).  Duplicates: after five
inserts of pairwise distinct records at stamp 5, re-inserting one of them
returns true and grows the cache to six records, because the forward scan
walks the wrong way. -/
theorem insert_retention_and_duplicate_failures :
    (c5retention.max_storage_time = 10 ∧
     TimeCache.get_latest_timestamp c5retention = some 100 ∧
     TimeCache.get_oldest_timestamp c5retention = some 0 ∧
     ¬ ((100 : Int) - 0 ≤ 10)) ∧
    (plainRec 5 0 ∈ c5dup.storage ∧ c5dup.storage.length = 5 ∧
     (TimeCache.insert_data c5dup (plainRec 5 0)).map
        (fun p => (p.1, p.2.storage.length)) = some (true, 6)) := by decide

/-- C7 counterexample: when both names strip to the empty string the
matching-ids check fires first, so set_transform returns MatchingFrameIDs,
not the EmptyFrameID error the claim assigns to an empty child name (the
buffer is indeed left unchanged). -/
theorem both_empty_names_give_matching_error :
    BufferCore.set_transform (BufferCore.new 10) c7both "a" false =
      (.error (.MatchingFrameIDs "a" ""), BufferCore.new 10) ∧
    (BufferCore.set_transform (BufferCore.new 10) c7both "a" false).1 ≠
      .error (.EmptyFrameID "a" "child_frame_id") := by decide

/-- C2 counterexample: in the buffer a -> b (static, stamp 1), b -> c
(dynamic, stamp 5), the bound walk from c (id 3) to a (id 1) crosses the
static cache of b, whose reported latest stamp 0 clamps the running min:
the computed interval is (5, 0), so even time 5 - the stamp held by every
temporal hop of the path - fails the bound check.  A transparent static hop
would have produced (5, 5). -/
theorem static_hop_clamps_latest_bound :
    c2buffer.frames_.get? 2 = some (.staticCache
      { rotation := quatId, translation := vzero, stamp := 1,
        frame_id := 1, child_frame_id := 2 }) ∧
    get_common_time_bounds c2buffer.frames_ 1 3 = some (5, 0) ∧
    ¬ ((5 : Int) ≤ 5 ∧ (5 : Int) ≤ 0) ∧
    get_common_time_bounds c2buffer.frames_ 1 3 ≠ some (5, 5) := by decide

/-- C9 counterexample: after clear, the static cache of frame b (id 2) is
untouched and still serves the record ingested before the clear, so static
caches are not emptied. -/
theorem clear_leaves_static_cache_populated :
    (BufferCore.clear c9buffer).frames_.get? 2 = some (.staticCache c9rec) ∧
    FrameCache.get_data slerp_const (.staticCache c9rec) 7 =
      .ok { c9rec with stamp := 7 } ∧
    (BufferCore.clear c9buffer).frames_.get? 2 = c9buffer.frames_.get? 2 := by decide

/-! ### The binary search terminates in range and finds what it claims. -/

/-- With enough fuel the search loop yields a result; a found index carries
the target key, a not-found index stays inside the window. -/
theorem bsearch_loop_total (keys : List Int) (target : Int) :
    ∀ (fuel left right : ℕ), left ≤ right → right ≤ keys.length →
      right - left < fuel →
      ∃ r, bsearch_loop keys target fuel left right = some r ∧
        (match r with
         | BsearchResult.found i =>
             ∃ hi : i < keys.length, keys.get ⟨i, hi⟩ = target
         | BsearchResult.notFound i => left ≤ i ∧ i ≤ right) := by
  intro fuel
  induction fuel with
  | zero => intro left right hlr hrlen hf; omega
  | succ fuel ih =>
    intro left right hlr hrlen hf
    by_cases h : left < right
    · have hmid : left + (right - left) / 2 < right := by omega
      have hmidlen : left + (right - left) / 2 < keys.length := by omega
      simp only [bsearch_loop, if_pos h, List.get?_eq_get hmidlen]
      rcases lt_trichotomy (keys.get ⟨left + (right - left) / 2, hmidlen⟩) target with hk | hk | hk
      · rw [if_pos hk]
        obtain ⟨r, hr, hp⟩ := ih (left + (right - left) / 2 + 1) right (by omega) hrlen (by omega)
        refine ⟨r, hr, ?_⟩
        rcases r with i | i
        · exact hp
        · exact ⟨by omega, hp.2⟩
      · rw [if_neg (by omega), if_neg (by omega)]
        exact ⟨.found _, rfl, hmidlen, hk⟩
      · rw [if_neg (by omega), if_pos hk]
        obtain ⟨r, hr, hp⟩ := ih left (left + (right - left) / 2) (by omega) (by omega) (by omega)
        refine ⟨r, hr, ?_⟩
        rcases r with i | i
        · exact hp
        · exact ⟨hp.1, by omega⟩
    · simp only [bsearch_loop, if_neg h]
      exact ⟨.notFound left, rfl, le_refl _, by omega⟩

/-- The top-level search finds: a found index holds the target key, a
not-found index is at most the length. -/
theorem bsearch_total (keys : List Int) (target : Int) :
    ∃ r, bsearch keys target = some r ∧
      (match r with
       | BsearchResult.found i =>
           ∃ hi : i < keys.length, keys.get ⟨i, hi⟩ = target
       | BsearchResult.notFound i => i ≤ keys.length) := by
  obtain ⟨r, hr, hp⟩ :=
    bsearch_loop_total keys target (keys.length + 1) 0 keys.length
      (Nat.zero_le _) (le_refl _) (by omega)
  refine ⟨r, hr, ?_⟩
  rcases r with i | i
  · exact hp
  · exact hp.2

/-- On an ascending key list a not-found index splits the keys: strictly
below the target before it, strictly above from it on. -/
theorem bsearch_loop_notFound_split (keys : List Int) (target : Int)
    (hs : keys.Pairwise (· ≤ ·)) :
    ∀ (fuel left right i : ℕ), left ≤ right → right ≤ keys.length →
      (∀ j (hj : j < keys.length), j < left → keys.get ⟨j, hj⟩ < target) →
      (∀ j (hj : j < keys.length), right ≤ j → target < keys.get ⟨j, hj⟩) →
      bsearch_loop keys target fuel left right = some (.notFound i) →
      (∀ j (hj : j < keys.length), j < i → keys.get ⟨j, hj⟩ < target) ∧
      (∀ j (hj : j < keys.length), i ≤ j → target < keys.get ⟨j, hj⟩) := by
  intro fuel
  induction fuel with
  | zero => intro left right i _ _ _ _ hcontra; simp [bsearch_loop] at hcontra
  | succ fuel ih =>
    intro left right i hlr hrlen hbelow habove heq
    by_cases h : left < right
    · have hmid : left + (right - left) / 2 < right := by omega
      have hmidlen : left + (right - left) / 2 < keys.length := by omega
      simp only [bsearch_loop, if_pos h, List.get?_eq_get hmidlen] at heq
      rcases lt_trichotomy (keys.get ⟨left + (right - left) / 2, hmidlen⟩) target with hk | hk | hk
      · rw [if_pos hk] at heq
        refine ih (left + (right - left) / 2 + 1) right i (by omega) hrlen ?_ habove heq
        intro j hj hjlt
        rcases Nat.lt_or_ge j (left + (right - left) / 2) with hj2 | hj2
        · exact lt_of_le_of_lt
            (List.pairwise_iff_get.mp hs ⟨j, hj⟩ ⟨_, hmidlen⟩ hj2) hk
        · have : j = left + (right - left) / 2 := by omega
          subst this; exact hk
      · rw [if_neg (by omega), if_neg (by omega)] at heq
        exact absurd heq (by simp)
      · rw [if_neg (by omega), if_pos hk] at heq
        refine ih left (left + (right - left) / 2) i (by omega) (by omega) hbelow ?_ heq
        intro j hj hjge
        rcases Nat.lt_or_ge j keys.length with _ | _
        · rcases Nat.eq_or_lt_of_le hjge with hj2 | hj2
          · have : j = left + (right - left) / 2 := hj2.symm
            subst this; exact hk
          · exact lt_of_lt_of_le hk
              (List.pairwise_iff_get.mp hs ⟨_, hmidlen⟩ ⟨j, hj⟩ hj2)
        · omega
    · simp only [bsearch_loop, if_neg h] at heq
      have hi : i = left := by
        have := heq
        injection this with h1
        injection h1 with h2
        omega
      subst hi
      exact ⟨hbelow, fun j hj hge => habove j hj (by omega)⟩

/-- The top-level split fact for a not-found result on ascending keys. -/
theorem bsearch_notFound_split (keys : List Int) (target : Int) (i : ℕ)
    (hs : keys.Pairwise (· ≤ ·))
    (heq : bsearch keys target = some (.notFound i)) :
    (∀ j (hj : j < keys.length), j < i → keys.get ⟨j, hj⟩ < target) ∧
    (∀ j (hj : j < keys.length), i ≤ j → target < keys.get ⟨j, hj⟩) := by
  refine bsearch_loop_notFound_split keys target hs (keys.length + 1) 0
    keys.length i (Nat.zero_le _) (le_refl _) ?_ ?_ heq
  · intro j hj hcontra; omega
  · intro j hj hcontra; omega

/-! ### C10: insert_data is total, every access in range. -/

/-- The backward duplicate scan never leaves the storage when it starts in
range. -/
theorem backward_scan_isSome (storage : List TransformStorage)
    (nd : TransformStorage) :
    ∀ i, i < storage.length → (TimeCache.backward_scan storage nd i).isSome := by
  intro i
  induction i with
  | zero =>
    intro h
    rw [TimeCache.backward_scan, List.get?_eq_get h]
    rfl
  | succ i ih =>
    intro h
    rw [TimeCache.backward_scan, List.get?_eq_get h]
    dsimp only
    by_cases h1 : (storage.get ⟨i + 1, h⟩).stamp = nd.stamp
    · rw [if_pos h1]
      by_cases h2 : storage.get ⟨i + 1, h⟩ = nd
      · rw [if_pos h2]; rfl
      · rw [if_neg h2]; exact ih (by omega)
    · rw [if_neg h1]; rfl

/-- prune_list always returns a cache. -/
theorem prune_list_isSome (c : TimeCache) : (TimeCache.prune_list c).isSome := by
  rw [TimeCache.prune_list]
  rcases hs : c.storage with _ | ⟨first, rest⟩
  · rfl
  · dsimp only
    obtain ⟨r, hr, _⟩ :=
      bsearch_total ((first :: rest).map TimeCache.stampKey)
        (-(first.stamp - c.max_storage_time))
    rw [hr]
    dsimp only
    split <;> rfl

/-- C10: TimeCache::insert_data is total: for every cache state and every
record, pruning, the binary search, the duplicate scans and the insertion
itself all stay in range and terminate, so the instrumented embedding never
reaches a panic path - in particular the decrementing forward scan exits
through its index bound after wrapping at zero, without any out-of-range
access. -/
theorem insert_data_total (c : TimeCache) (nd : TransformStorage) :
    (TimeCache.insert_data c nd).isSome := by
  rw [TimeCache.insert_data]
  obtain ⟨c1, hc1⟩ := Option.isSome_iff_exists.mp (prune_list_isSome c)
  rw [hc1]
  dsimp only
  obtain ⟨r, hr, hp⟩ :=
    bsearch_total (c1.storage.map TimeCache.stampKey) (TimeCache.stampKey nd)
  rw [hr]
  rcases r with idx | idx
  · dsimp only
    obtain ⟨hidx0, _⟩ := hp
    have hidx : idx < c1.storage.length := by simpa using hidx0
    obtain ⟨b, hb⟩ := Option.isSome_iff_exists.mp
      (backward_scan_isSome c1.storage nd idx hidx)
    rw [hb]
    dsimp only
    by_cases hg : (b || TimeCache.forward_scan c1.storage nd (idx + 1)) = true
    · rw [if_pos hg]; rfl
    · rw [if_neg hg, if_pos (Nat.le_of_lt hidx)]; rfl
  · dsimp only
    have hle : idx ≤ c1.storage.length := by simpa using hp
    rw [if_pos hle]; rfl

/-! ### C5: what insert_data does preserve - the descending stamp order. -/

/-- Descending stamps make the negated-stamp keys ascending. -/
theorem sorted_keys_pairwise (l : List TransformStorage)
    (h : stampsDescending l) :
    (l.map TimeCache.stampKey).Pairwise (· ≤ ·) := by
  rw [List.pairwise_map]
  refine h.imp ?_
  intro a b hab
  simp only [TimeCache.stampKey]
  omega

/-- prune_list either keeps the storage or truncates it. -/
theorem prune_list_shape (c c1 : TimeCache)
    (h : TimeCache.prune_list c = some c1) :
    c1 = c ∨ ∃ n, c1 = { c with storage := c.storage.take n } := by
  rw [TimeCache.prune_list] at h
  rcases hs : c.storage with _ | ⟨first, rest⟩
  · rw [hs] at h
    exact Or.inl (Option.some_injective _ h).symm
  · rw [hs] at h
    dsimp only at h
    rcases hbs : bsearch ((first :: rest).map TimeCache.stampKey)
        (-(first.stamp - c.max_storage_time)) with _ | r
    · rw [hbs] at h; exact absurd h (by simp)
    · rw [hbs] at h
      dsimp only at h
      split at h
      · exact Or.inr ⟨_, (Option.some_injective _ h).symm⟩
      · exact Or.inl (Option.some_injective _ h).symm

/-- prune_list preserves the descending order (truncation is a sublist). -/
theorem prune_preserves_descending (c c1 : TimeCache)
    (hs : stampsDescending c.storage)
    (h : TimeCache.prune_list c = some c1) :
    stampsDescending c1.storage := by
  rcases prune_list_shape c c1 h with h1 | ⟨n, h1⟩
  · rw [h1]; exact hs
  · rw [h1]
    exact List.Pairwise.sublist (List.take_sublist n c.storage) hs

/-- Inserting at a position whose left side holds no smaller stamp and whose
right side holds no larger stamp keeps the storage descending. -/
theorem insert_at_descending (l : List TransformStorage)
    (nd : TransformStorage) (i : ℕ) (hs : stampsDescending l)
    (hbefore : ∀ j (hj : j < l.length), j < i → nd.stamp ≤ (l.get ⟨j, hj⟩).stamp)
    (hafter : ∀ j (hj : j < l.length), i ≤ j → (l.get ⟨j, hj⟩).stamp ≤ nd.stamp) :
    stampsDescending (insert_at i nd l) := by
  unfold stampsDescending insert_at
  rw [List.pairwise_append]
  have hmem_take : ∀ a ∈ l.take i, nd.stamp ≤ a.stamp := by
    intro a ha
    rw [List.mem_iff_get] at ha
    obtain ⟨⟨m, hm⟩, hma⟩ := ha
    have hmi : m < i := by
      have := hm; rw [List.length_take] at this; omega
    have hml : m < l.length := by
      have := hm; rw [List.length_take] at this; omega
    have : (l.take i).get ⟨m, hm⟩ = l.get ⟨m, hml⟩ := by
      simp [List.get_eq_getElem, List.getElem_take]
    rw [← hma, this]
    exact hbefore m hml hmi
  have hmem_drop : ∀ b ∈ l.drop i, b.stamp ≤ nd.stamp := by
    intro b hb
    rw [List.mem_iff_get] at hb
    obtain ⟨⟨m, hm⟩, hmb⟩ := hb
    have hml : i + m < l.length := by
      have := hm; rw [List.length_drop] at this; omega
    have : (l.drop i).get ⟨m, hm⟩ = l.get ⟨i + m, hml⟩ := by
      simp [List.get_eq_getElem, List.getElem_drop]
    rw [← hmb, this]
    exact hafter (i + m) hml (Nat.le_add_right i m)
  refine ⟨List.Pairwise.sublist (List.take_sublist i l) hs, ?_, ?_⟩
  · rw [List.pairwise_cons]
    exact ⟨hmem_drop, List.Pairwise.sublist (List.drop_sublist i l) hs⟩
  · intro a ha b hb
    rcases List.mem_cons.mp hb with hb1 | hb1
    · rw [hb1]; exact hmem_take a ha
    · exact le_trans (hmem_drop b hb1) (hmem_take a ha)

/-- C5 (amended): every insert keeps the stamps in descending order (index 0
newest).  The retention bound and the duplicate-drop guarantee of the
original claim fail (see the counterexample). -/
theorem insert_data_keeps_descending (c : TimeCache) (nd : TransformStorage)
    (b : Bool) (c1 : TimeCache) (hs : stampsDescending c.storage)
    (h : TimeCache.insert_data c nd = some (b, c1)) :
    stampsDescending c1.storage := by
  rw [TimeCache.insert_data] at h
  rcases hcp : TimeCache.prune_list c with _ | cp
  · rw [hcp] at h; exact absurd h (by simp)
  · rw [hcp] at h
    dsimp only at h
    have hsp : stampsDescending cp.storage := prune_preserves_descending c cp hs hcp
    have hkeys : (cp.storage.map TimeCache.stampKey).Pairwise (· ≤ ·) :=
      sorted_keys_pairwise cp.storage hsp
    rcases hbs : bsearch (cp.storage.map TimeCache.stampKey)
        (TimeCache.stampKey nd) with _ | r
    · rw [hbs] at h; exact absurd h (by simp)
    · rw [hbs] at h
      obtain ⟨r2, hr2, hp2⟩ :=
        bsearch_total (cp.storage.map TimeCache.stampKey) (TimeCache.stampKey nd)
      rw [hbs] at hr2
      have hrr : r2 = r := (Option.some_injective _ hr2).symm
      subst hrr
      rcases r2 with idx | idx
      · -- found: the key at idx equals the key of nd
        dsimp only at h
        obtain ⟨hidx0, hkey⟩ := hp2
        have hidx : idx < cp.storage.length := by simpa using hidx0
        have hstamp : (cp.storage.get ⟨idx, hidx⟩).stamp = nd.stamp := by
          rw [List.get_map] at hkey
          simp only [TimeCache.stampKey] at hkey
          omega
        rcases hbsc : TimeCache.backward_scan cp.storage nd idx with _ | gb
        · rw [hbsc] at h; exact absurd h (by simp)
        · rw [hbsc] at h
          dsimp only at h
          by_cases hg : (gb || TimeCache.forward_scan cp.storage nd (idx + 1)) = true
          · rw [if_pos hg] at h
            have hc1 : c1 = cp := by
              have h2 := Option.some_injective _ h
              exact (congrArg Prod.snd h2).symm
            rw [hc1]; exact hsp
          · rw [if_neg hg, if_pos (Nat.le_of_lt hidx)] at h
            have hc1 : c1 = { cp with storage := insert_at idx nd cp.storage } := by
              have := Option.some_injective _ h
              exact congrArg Prod.snd this.symm
            rw [hc1]
            refine insert_at_descending cp.storage nd idx hsp ?_ ?_
            · intro j hj hji
              rcases Nat.eq_or_lt_of_le (Nat.succ_le_of_lt hji) with h2 | h2
              · have : j = idx - 1 := by omega
                rw [← hstamp]
                exact List.pairwise_iff_get.mp hsp ⟨j, hj⟩ ⟨idx, hidx⟩ hji
              · rw [← hstamp]
                exact List.pairwise_iff_get.mp hsp ⟨j, hj⟩ ⟨idx, hidx⟩ hji
            · intro j hj hji
              rcases Nat.eq_or_lt_of_le hji with h2 | h2
              · have : (⟨idx, hidx⟩ : Fin cp.storage.length) = ⟨j, hj⟩ := by
                  simp [h2]
                rw [← hstamp, this]
              · rw [← hstamp]
                exact List.pairwise_iff_get.mp hsp ⟨idx, hidx⟩ ⟨j, hj⟩ h2
      · -- not found: the split facts give the bounds
        dsimp only at h
        obtain ⟨hbelow, habove⟩ :=
          bsearch_notFound_split (cp.storage.map TimeCache.stampKey)
            (TimeCache.stampKey nd) idx hkeys hbs
        by_cases hle : idx ≤ cp.storage.length
        · rw [if_pos hle] at h
          have hc1 : c1 = { cp with storage := insert_at idx nd cp.storage } := by
            have := Option.some_injective _ h
            exact congrArg Prod.snd this.symm
          rw [hc1]
          refine insert_at_descending cp.storage nd idx hsp ?_ ?_
          · intro j hj hji
            have hjm : j < (cp.storage.map TimeCache.stampKey).length := by
              simpa using hj
            have := hbelow j hjm hji
            rw [List.get_map] at this
            simp only [TimeCache.stampKey] at this
            omega
          · intro j hj hji
            have hjm : j < (cp.storage.map TimeCache.stampKey).length := by
              simpa using hj
            have := habove j hjm hji
            rw [List.get_map] at this
            simp only [TimeCache.stampKey] at this
            omega
        · rw [if_neg hle] at h
          exact absurd h (by simp)

/-- C5 witness: a concrete insert through the theorem. -/
theorem insert_data_keeps_descending_witness :
    stampsDescending
      ({ storage := [plainRec 5 0, plainRec 3 0], max_storage_time := 100 } :
        TimeCache).storage :=
  insert_data_keeps_descending
    { storage := [plainRec 5 0], max_storage_time := 100 } (plainRec 3 0) true
    { storage := [plainRec 5 0, plainRec 3 0], max_storage_time := 100 }
    (by decide) (by decide)

/-! ### C4: the get taxonomy of the temporal cache. -/

/-- get_data forwards a find_closest error unchanged. -/
theorem get_data_of_error (slerp_fn : Quat → Quat → ℚ → Quat) (c : TimeCache)
    (t : Int) (e : TF2Error) (h : TimeCache.find_closest c t = some (.error e)) :
    TimeCache.get_data slerp_fn c t = some (.error e) := by
  unfold TimeCache.get_data
  rw [h]

/-- get_data returns a single find_closest record unchanged. -/
theorem get_data_of_one (slerp_fn : Quat → Quat → ℚ → Quat) (c : TimeCache)
    (t : Int) (r : TransformStorage)
    (h : TimeCache.find_closest c t = some (.ok [r])) :
    TimeCache.get_data slerp_fn c t = some (.ok (some r)) := by
  unfold TimeCache.get_data
  rw [h]

/-- In a descending cache the oldest record's stamp bounds the newest. -/
theorem descending_getLast_le (a : TransformStorage)
    (l : List TransformStorage) (hs : stampsDescending (a :: l))
    (hne : a :: l ≠ []) :
    ((a :: l).getLast hne).stamp ≤ a.stamp := by
  rcases List.mem_cons.mp (List.getLast_mem hne) with h1 | h1
  · rw [h1]
  · exact List.rel_of_pairwise_cons hs h1

/-- C4 (amended): the get taxonomy of the temporal cache, in the precedence
order of the source.  An empty cache yields Ok(None), not the Empty error;
every other clause of the claim holds: time 0 yields the newest record, a
single-entry cache yields its record exactly at its stamp and the
single-extrapolation error elsewhere, and a multi-entry cache yields the
newest and oldest records at the exact bounds and the past/future
extrapolation errors strictly outside them. -/
theorem get_data_error_taxonomy (slerp_fn : Quat → Quat → ℚ → Quat) :
    (∀ (m t : Int),
      TimeCache.get_data slerp_fn { storage := [], max_storage_time := m } t =
        some (.ok none)) ∧
    (∀ (m : Int) (a : TransformStorage) (rest : List TransformStorage),
      TimeCache.get_data slerp_fn { storage := a :: rest, max_storage_time := m } 0 =
        some (.ok (some a))) ∧
    (∀ (m t : Int) (r : TransformStorage), t ≠ 0 → t ≠ r.stamp →
      TimeCache.get_data slerp_fn { storage := [r], max_storage_time := m } t =
        some (.error (.SingleExtrapolationError t r.stamp))) ∧
    (∀ (m : Int) (r : TransformStorage), r.stamp ≠ 0 →
      TimeCache.get_data slerp_fn { storage := [r], max_storage_time := m } r.stamp =
        some (.ok (some r))) ∧
    (∀ (m t : Int) (a b : TransformStorage) (rest : List TransformStorage)
        (lastRec : TransformStorage),
      stampsDescending (a :: b :: rest) →
      (a :: b :: rest).getLast? = some lastRec →
      t ≠ 0 → t < lastRec.stamp →
      TimeCache.get_data slerp_fn
          { storage := a :: b :: rest, max_storage_time := m } t =
        some (.error (.PastExtrapolationError t lastRec.stamp))) ∧
    (∀ (m t : Int) (a b : TransformStorage) (rest : List TransformStorage),
      stampsDescending (a :: b :: rest) →
      t ≠ 0 → a.stamp < t →
      TimeCache.get_data slerp_fn
          { storage := a :: b :: rest, max_storage_time := m } t =
        some (.error (.FutureExtrapolationError t a.stamp))) ∧
    (∀ (m : Int) (a b : TransformStorage) (rest : List TransformStorage),
      a.stamp ≠ 0 →
      TimeCache.get_data slerp_fn
          { storage := a :: b :: rest, max_storage_time := m } a.stamp =
        some (.ok (some a))) ∧
    (∀ (m : Int) (a b : TransformStorage) (rest : List TransformStorage)
        (lastRec : TransformStorage),
      (a :: b :: rest).getLast? = some lastRec →
      lastRec.stamp ≠ 0 → lastRec.stamp ≠ a.stamp →
      TimeCache.get_data slerp_fn
          { storage := a :: b :: rest, max_storage_time := m } lastRec.stamp =
        some (.ok (some lastRec))) := by
  have hlast : ∀ (a b : TransformStorage) (rest : List TransformStorage)
      (lastRec : TransformStorage), (a :: b :: rest).getLast? = some lastRec →
      (a :: b :: rest).getLast (by simp) = lastRec := by
    intro a b rest lastRec h
    have := List.getLast?_eq_getLast (a :: b :: rest) (by simp)
    rw [this] at h
    exact Option.some_injective _ h
  refine ⟨fun m t => rfl, ?_, ?_, ?_, ?_, ?_, ?_, ?_⟩
  · intro m a rest
    unfold TimeCache.get_data TimeCache.find_closest
    dsimp only
    have h0 : (0 : Int) = 0 := rfl
    rw [if_pos h0]
  · intro m t r ht0 hts
    refine get_data_of_error slerp_fn _ t _ ?_
    unfold TimeCache.find_closest
    dsimp only
    have hlen : ([] : List TransformStorage).length = 0 := rfl
    rw [if_neg ht0, if_pos hlen, if_neg hts]
  · intro m r h0
    refine get_data_of_one slerp_fn _ _ r ?_
    unfold TimeCache.find_closest
    dsimp only
    have hlen : ([] : List TransformStorage).length = 0 := rfl
    have hst : r.stamp = r.stamp := rfl
    rw [if_neg h0, if_pos hlen, if_pos hst]
  · intro m t a b rest lastRec hs hl ht0 hpast
    have he := hlast a b rest lastRec hl
    have hle : lastRec.stamp ≤ a.stamp := by
      rw [← he]; exact descending_getLast_le a (b :: rest) hs (by simp)
    refine get_data_of_error slerp_fn _ t _ ?_
    unfold TimeCache.find_closest
    dsimp only
    have hlen : ¬ ((b :: rest).length = 0) := by simp
    have h1 : ¬ (t = a.stamp) := by omega
    rw [if_neg ht0, if_neg hlen, he]
    have h2 : ¬ (t = lastRec.stamp) := by omega
    rw [if_neg h1, if_neg h2, if_pos hpast]
  · intro m t a b rest hs ht0 hfut
    have hle : ((a :: b :: rest).getLast (by simp)).stamp ≤ a.stamp :=
      descending_getLast_le a (b :: rest) hs (by simp)
    refine get_data_of_error slerp_fn _ t _ ?_
    unfold TimeCache.find_closest
    dsimp only
    have hlen : ¬ ((b :: rest).length = 0) := by simp
    have h1 : ¬ (t = a.stamp) := by omega
    have h2 : ¬ (t = ((a :: b :: rest).getLast (by simp)).stamp) := by omega
    have h3 : ¬ (t < ((a :: b :: rest).getLast (by simp)).stamp) := by omega
    rw [if_neg ht0, if_neg hlen, if_neg h1, if_neg h2, if_neg h3, if_pos hfut]
  · intro m a b rest h0
    refine get_data_of_one slerp_fn _ _ a ?_
    unfold TimeCache.find_closest
    dsimp only
    have hlen : ¬ ((b :: rest).length = 0) := by simp
    have hst : a.stamp = a.stamp := rfl
    rw [if_neg h0, if_neg hlen, if_pos hst]
  · intro m a b rest lastRec hl h0 hne
    have he := hlast a b rest lastRec hl
    refine get_data_of_one slerp_fn _ _ lastRec ?_
    unfold TimeCache.find_closest
    dsimp only
    have hlen : ¬ ((b :: rest).length = 0) := by simp
    have hst : lastRec.stamp = lastRec.stamp := rfl
    rw [if_neg h0, if_neg hlen, he, if_neg hne, if_pos hst]

/-- C4 witness: the taxonomy evaluated on concrete caches. -/
theorem get_data_error_taxonomy_witness :
    TimeCache.get_data slerp_const { storage := [], max_storage_time := 10 } 5 =
      some (.ok none) ∧
    TimeCache.get_data slerp_const
        { storage := [c3hi, c3lo], max_storage_time := 10 } 0 =
      some (.ok (some c3hi)) ∧
    TimeCache.get_data slerp_const
        { storage := [plainRec 3 0], max_storage_time := 10 } 7 =
      some (.error (.SingleExtrapolationError 7 3)) ∧
    TimeCache.get_data slerp_const
        { storage := [plainRec 3 0], max_storage_time := 10 } 3 =
      some (.ok (some (plainRec 3 0))) ∧
    TimeCache.get_data slerp_const
        { storage := [c3hi, c3lo], max_storage_time := 10 } 5 =
      some (.error (.PastExtrapolationError 5 10)) ∧
    TimeCache.get_data slerp_const
        { storage := [c3hi, c3lo], max_storage_time := 10 } 25 =
      some (.error (.FutureExtrapolationError 25 20)) ∧
    TimeCache.get_data slerp_const
        { storage := [c3hi, c3lo], max_storage_time := 10 } 20 =
      some (.ok (some c3hi)) ∧
    TimeCache.get_data slerp_const
        { storage := [c3hi, c3lo], max_storage_time := 10 } 10 =
      some (.ok (some c3lo)) :=
  ⟨(get_data_error_taxonomy slerp_const).1 10 5,
   (get_data_error_taxonomy slerp_const).2.1 10 c3hi [c3lo],
   (get_data_error_taxonomy slerp_const).2.2.1 10 7 (plainRec 3 0)
     (by decide) (by decide),
   (get_data_error_taxonomy slerp_const).2.2.2.1 10 (plainRec 3 0) (by decide),
   (get_data_error_taxonomy slerp_const).2.2.2.2.1 10 5 c3hi c3lo [] c3lo
     (by decide) (by decide) (by decide) (by decide),
   (get_data_error_taxonomy slerp_const).2.2.2.2.2.1 10 25 c3hi c3lo []
     (by decide) (by decide) (by decide),
   (get_data_error_taxonomy slerp_const).2.2.2.2.2.2.1 10 c3hi c3lo []
     (by decide),
   (get_data_error_taxonomy slerp_const).2.2.2.2.2.2.2 10 c3hi c3lo [] c3lo
     (by decide) (by decide) (by decide)⟩

/-! ### C3: lookups strictly between an adjacent pair. -/

/-- In a descending list, stamps are monotone in the index. -/
theorem descending_get_mono (l : List TransformStorage)
    (hs : stampsDescending l) (j k : ℕ) (hj : j < l.length)
    (hk : k < l.length) (hjk : j ≤ k) :
    (l.get ⟨k, hk⟩).stamp ≤ (l.get ⟨j, hj⟩).stamp := by
  rcases Nat.eq_or_lt_of_le hjk with he | hlt
  · subst he; rfl
  · exact List.pairwise_iff_get.mp hs ⟨j, hj⟩ ⟨k, hk⟩ hlt

/-- get_data dispatches the two-record case: interpolate on a common parent,
the first (older) record otherwise. -/
theorem get_data_of_two (slerp_fn : Quat → Quat → ℚ → Quat) (c : TimeCache)
    (t : Int) (lo hi : TransformStorage)
    (h : TimeCache.find_closest c t = some (.ok [lo, hi])) :
    TimeCache.get_data slerp_fn c t =
      some (.ok (some (if lo.frame_id = hi.frame_id
        then TimeCache.interpolate slerp_fn lo hi t else lo))) := by
  unfold TimeCache.get_data
  rw [h]
  dsimp only
  by_cases hf : lo.frame_id = hi.frame_id
  · rw [if_pos hf, if_pos hf]
  · rw [if_neg hf, if_neg hf]

/-- C3 (amended): for a query time strictly between the stamps of the
adjacent records hi (at index i) and lo (at index i + 1): when the parent
ids agree the result is Interpolate(lo, hi, t); when they differ (the frame
was reparented across t) the result is lo, the OLDER record, unchanged - no
interpolation is performed. -/
theorem get_data_between_adjacent (slerp_fn : Quat → Quat → ℚ → Quat)
    (c : TimeCache) (t : Int) (i : ℕ) (lo hi : TransformStorage)
    (hs : stampsDescending c.storage)
    (hgetlo : c.storage.get? (i + 1) = some lo)
    (hgethi : c.storage.get? i = some hi)
    (ht0 : t ≠ 0) (hlot : lo.stamp < t) (hhit : t < hi.stamp) :
    TimeCache.get_data slerp_fn c t =
      some (.ok (some (if lo.frame_id = hi.frame_id
        then TimeCache.interpolate slerp_fn lo hi t else lo))) := by
  rcases c with ⟨storage, m⟩
  dsimp only at hs hgetlo hgethi ⊢
  rcases storage with _ | ⟨a, rest0⟩
  · simp at hgetlo
  rcases rest0 with _ | ⟨b, rest⟩
  · simp at hgetlo
  obtain ⟨hi1, hloeq⟩ := List.get?_eq_some.mp hgetlo
  obtain ⟨hi0, hhieq⟩ := List.get?_eq_some.mp hgethi
  have hne : a :: b :: rest ≠ [] := by simp
  -- the newest stamp strictly exceeds t
  have ha0 : (a :: b :: rest).get ⟨0, by simp⟩ = a := rfl
  have hta : t < a.stamp := by
    have h1 : (a :: b :: rest).get ⟨i, hi0⟩ = hi := hhieq
    have h2 := descending_get_mono _ hs 0 i (by simp) hi0 (Nat.zero_le i)
    rw [ha0, h1] at h2
    omega
  -- the oldest stamp is strictly below t
  have hlastget := List.getLast_eq_get (a :: b :: rest) hne
  have hlast_lt : ((a :: b :: rest).getLast hne).stamp < t := by
    have hlenpos : (a :: b :: rest).length - 1 < (a :: b :: rest).length := by
      simp
    have h2 := descending_get_mono _ hs (i + 1) ((a :: b :: rest).length - 1)
      hi1 hlenpos (by omega)
    rw [hlastget]
    rw [hloeq] at h2
    omega
  -- pin the binary search outcome
  obtain ⟨r, hr, hp⟩ :=
    bsearch_total ((a :: b :: rest).map TimeCache.stampKey) (-t)
  have hkey : ∀ (j : ℕ) (hjk : j < ((a :: b :: rest).map TimeCache.stampKey).length),
      ((a :: b :: rest).map TimeCache.stampKey).get ⟨j, hjk⟩ =
        -((a :: b :: rest).get ⟨j, by simpa using hjk⟩).stamp := by
    intro j hjk
    rw [List.get_map]
    rfl
  rcases r with j | idx
  · -- an exact key hit is impossible strictly between the pair
    exfalso
    obtain ⟨hj, hkeyeq⟩ := hp
    rw [hkey j hj] at hkeyeq
    have hjL : j < (a :: b :: rest).length := by simpa using hj
    have hstamp : ((a :: b :: rest).get ⟨j, hjL⟩).stamp = t := by omega
    rcases Nat.lt_or_ge j (i + 1) with hcase | hcase
    · have h2 := descending_get_mono _ hs j i hjL hi0 (by omega)
      rw [hhieq] at h2
      omega
    · have h2 := descending_get_mono _ hs (i + 1) j hi1 hjL hcase
      rw [hloeq] at h2
      omega
  · -- the miss position is exactly i + 1
    have hsplit := bsearch_notFound_split _ (-t) idx
      (sorted_keys_pairwise _ hs) hr
    have hidx : idx = i + 1 := by
      rcases Nat.lt_or_ge idx (i + 2) with hc1 | hc1
      · rcases Nat.lt_or_ge idx (i + 1) with hc2 | hc2
        · exfalso
          have hiK : i < ((a :: b :: rest).map TimeCache.stampKey).length := by
            simpa using hi0
          have h2 := hsplit.2 i hiK (by omega)
          rw [hkey i hiK] at h2
          have : (a :: b :: rest).get ⟨i, by simpa using hiK⟩ = hi := hhieq
          rw [this] at h2
          omega
        · omega
      · exfalso
        have hiK : i + 1 < ((a :: b :: rest).map TimeCache.stampKey).length := by
          simpa using hi1
        have h2 := hsplit.1 (i + 1) hiK (by omega)
        rw [hkey (i + 1) hiK] at h2
        have : (a :: b :: rest).get ⟨i + 1, by simpa using hiK⟩ = lo := hloeq
        rw [this] at h2
        omega
    subst hidx
    -- assemble the find_closest result
    refine get_data_of_two slerp_fn _ t lo hi ?_
    unfold TimeCache.find_closest
    dsimp only
    have hlen : ¬ ((b :: rest).length = 0) := by simp
    have h1 : ¬ (t = a.stamp) := by omega
    have h2 : ¬ (t = ((a :: b :: rest).getLast hne).stamp) := by omega
    have h3 : ¬ (t < ((a :: b :: rest).getLast hne).stamp) := by omega
    have h4 : ¬ (a.stamp < t) := by omega
    rw [if_neg ht0, if_neg hlen, if_neg h1, if_neg h2, if_neg h3, if_neg h4, hr]
    dsimp only
    have h5 : ¬ (i + 1 = 0) := by omega
    rw [if_neg h5, Nat.add_sub_cancel, hgetlo, hgethi]

/-- C3 witness: through the theorem on concrete caches - the reparented
pair returns the older record, the same-parent pair interpolates. -/
theorem get_data_between_adjacent_witness :
    TimeCache.get_data slerp_const c3cache 15 =
      some (.ok (some (if c3lo.frame_id = c3hi.frame_id
        then TimeCache.interpolate slerp_const c3lo c3hi 15 else c3lo))) ∧
    TimeCache.get_data slerp_const c3wcache 15 =
      some (.ok (some (if c3lo.frame_id = c3whi.frame_id
        then TimeCache.interpolate slerp_const c3lo c3whi 15 else c3lo))) :=
  ⟨get_data_between_adjacent slerp_const c3cache 15 0 c3lo c3hi
      (by decide) (by decide) (by decide) (by decide) (by decide) (by decide),
   get_data_between_adjacent slerp_const c3wcache 15 0 c3lo c3whi
      (by decide) (by decide) (by decide) (by decide) (by decide) (by decide)⟩

/-! ### C8: the interpolation record, field by field. -/

/-- C8 (amended): under the claim's precondition, interpolation with equal
stamps returns the first record unchanged; with distinct stamps the
translation is the affine blend by the f64 ratio, the stamp is the query
time, the parent id comes from a - and the child id is set to b's PARENT
id, not inherited from a. -/
theorem interpolate_fields_spec (slerp_fn : Quat → Quat → ℚ → Quat)
    (a b : TransformStorage) (t : Int)
    (h1 : a.stamp ≤ t) (h2 : t ≤ b.stamp) (hp : a.frame_id = b.frame_id) :
    (a.stamp = b.stamp → TransformStorage.interpolate slerp_fn a b t = a) ∧
    (a.stamp ≠ b.stamp →
      TransformStorage.interpolate slerp_fn a b t =
        { rotation := slerp_fn a.rotation b.rotation
            (((t : ℚ) - (a.stamp : ℚ)) / ((b.stamp : ℚ) - (a.stamp : ℚ))),
          translation := vadd
            (smul (1 - ((t : ℚ) - (a.stamp : ℚ)) / ((b.stamp : ℚ) - (a.stamp : ℚ)))
              a.translation)
            (smul (((t : ℚ) - (a.stamp : ℚ)) / ((b.stamp : ℚ) - (a.stamp : ℚ)))
              b.translation),
          stamp := t, frame_id := a.frame_id, child_frame_id := b.frame_id }) := by
  constructor
  · intro h
    unfold TransformStorage.interpolate
    rw [if_pos h]
  · intro h
    unfold TransformStorage.interpolate
    rw [if_neg h]

/-- C8 witness: the theorem applied at the concrete pair, with the fields
evaluated. -/
theorem interpolate_fields_spec_witness :
    TransformStorage.interpolate slerp_const c8a c8b 1 =
      { rotation := quatId, translation := ⟨2, 0, 0⟩, stamp := 1,
        frame_id := 2, child_frame_id := 2 } := by
  have h := (interpolate_fields_spec slerp_const c8a c8b 1
    (by decide) (by decide) (by decide)).2 (by decide)
  rw [h]
  simp only [slerp_const, c8a, c8b, vadd, smul, vzero, quatId,
    TransformStorage.mk.injEq, Vec3.mk.injEq]
  norm_num

/-! ### C7: the ingestion validation, with its precedence. -/

/-- C7 (amended): equal stripped names (both empty included) give
MatchingFrameIDs; an empty child with a distinct (nonempty) parent gives
EmptyFrameID(child_frame_id); an empty parent with a nonempty child gives
EmptyFrameID(frame_id); each error case returns the buffer unchanged. -/
theorem set_transform_validation (bc : BufferCore)
    (transform : TransformStamped) (authority : String) (is_static : Bool) :
    (BufferCore.strip_slashes transform.child_frame_id =
        BufferCore.strip_slashes transform.frame_id →
      BufferCore.set_transform bc transform authority is_static =
        (.error (.MatchingFrameIDs authority
          (BufferCore.strip_slashes transform.child_frame_id)), bc)) ∧
    (BufferCore.strip_slashes transform.child_frame_id = "" →
      BufferCore.strip_slashes transform.frame_id ≠ "" →
      BufferCore.set_transform bc transform authority is_static =
        (.error (.EmptyFrameID authority "child_frame_id"), bc)) ∧
    (BufferCore.strip_slashes transform.frame_id = "" →
      BufferCore.strip_slashes transform.child_frame_id ≠ "" →
      BufferCore.set_transform bc transform authority is_static =
        (.error (.EmptyFrameID authority "frame_id"), bc)) := by
  refine ⟨?_, ?_, ?_⟩
  · intro h
    unfold BufferCore.set_transform
    rw [if_pos h]
  · intro hc hp
    unfold BufferCore.set_transform
    have hne : ¬ (BufferCore.strip_slashes transform.child_frame_id =
        BufferCore.strip_slashes transform.frame_id) := by
      rw [hc]; exact fun contra => hp contra.symm
    rw [if_neg hne, if_pos hc]
  · intro hp hc
    unfold BufferCore.set_transform
    have hne : ¬ (BufferCore.strip_slashes transform.child_frame_id =
        BufferCore.strip_slashes transform.frame_id) := by
      rw [hp]; exact hc
    rw [if_neg hne, if_neg hc, if_pos hp]

/-- C7 witness: the three validation errors on concrete inputs, through the
theorem. -/
theorem set_transform_validation_witness :
    BufferCore.set_transform (BufferCore.new 10) c7both "a" false =
      (.error (.MatchingFrameIDs "a"
        (BufferCore.strip_slashes c7both.child_frame_id)), BufferCore.new 10) ∧
    BufferCore.set_transform (BufferCore.new 10)
        { stamp := 0, frame_id := "p", child_frame_id := "",
          translation := vzero, rotation := quatId } "a" false =
      (.error (.EmptyFrameID "a" "child_frame_id"), BufferCore.new 10) ∧
    BufferCore.set_transform (BufferCore.new 10)
        { stamp := 0, frame_id := "", child_frame_id := "c",
          translation := vzero, rotation := quatId } "a" false =
      (.error (.EmptyFrameID "a" "frame_id"), BufferCore.new 10) :=
  ⟨(set_transform_validation (BufferCore.new 10) c7both "a" false).1 (by decide),
   (set_transform_validation (BufferCore.new 10)
      { stamp := 0, frame_id := "p", child_frame_id := "",
        translation := vzero, rotation := quatId } "a" false).2.1
      (by decide) (by decide),
   (set_transform_validation (BufferCore.new 10)
      { stamp := 0, frame_id := "", child_frame_id := "c",
        translation := vzero, rotation := quatId } "a" false).2.2
      (by decide) (by decide)⟩

/-! ### C9: what clear does and does not empty. -/

/-- C9 (amended): clear preserves the name/id maps, the authority map and
the retention window, skips the root slot (index 0), empties every temporal
cache from index 1 on - and leaves every static cache's record in place. -/
theorem clear_preserves_ids_and_empties_temporal (bc : BufferCore) :
    (BufferCore.clear bc).frame_to_id = bc.frame_to_id ∧
    (BufferCore.clear bc).id_to_frame = bc.id_to_frame ∧
    (BufferCore.clear bc).frame_authority = bc.frame_authority ∧
    (BufferCore.clear bc).cache_time_ns = bc.cache_time_ns ∧
    (BufferCore.clear bc).frames_.get? 0 = bc.frames_.get? 0 ∧
    (∀ (i : ℕ) (s : List TransformStorage) (m : Int), 1 ≤ i →
      bc.frames_.get? i = some (.timeCache s m) →
      (BufferCore.clear bc).frames_.get? i = some (.timeCache [] m)) ∧
    (∀ (i : ℕ) (s : TransformStorage), 1 ≤ i →
      bc.frames_.get? i = some (.staticCache s) →
      (BufferCore.clear bc).frames_.get? i = some (.staticCache s)) := by
  rcases bc with ⟨frames, m1, m2, m3, m4⟩
  unfold BufferCore.clear
  rcases frames with _ | ⟨r, rest⟩
  · refine ⟨rfl, rfl, rfl, rfl, rfl, ?_, ?_⟩
    · intro i s m h1 h2; simp at h2
    · intro i s h1 h2; simp at h2
  · refine ⟨rfl, rfl, rfl, rfl, rfl, ?_, ?_⟩
    · intro i s m h1 h2
      rcases i with _ | j
      · omega
      · dsimp only at h2 ⊢
        rw [List.get?_cons_succ] at h2 ⊢
        rw [List.get?_map, h2]
        rfl
    · intro i s h1 h2
      rcases i with _ | j
      · omega
      · dsimp only at h2 ⊢
        rw [List.get?_cons_succ] at h2 ⊢
        rw [List.get?_map, h2]
        rfl

/-- C9 witness: through the theorem on the concrete one-edge buffer. -/
theorem clear_preserves_ids_witness :
    (BufferCore.clear c9buffer).frame_to_id = c9buffer.frame_to_id ∧
    (BufferCore.clear c9buffer).frames_.get? 2 = some (.staticCache c9rec) :=
  ⟨(clear_preserves_ids_and_empties_temporal c9buffer).1,
   (clear_preserves_ids_and_empties_temporal c9buffer).2.2.2.2.2.2 2 c9rec
     (by decide) (by decide)⟩

/-! ### C2: what a static cache reports and what a hop over it does. -/

/-- C2 (amended): a static cache reports no latest stamp and the pair
(0, parent); in the bound walks a hop over a static cache leaves the
running max-of-oldest at max(path, 0) but CLAMPS the running min-of-latest
to min(path, 0) - the reported latest stamp 0 enters the min, so static
hops are not transparent on the latest side and the computed upper bound
collapses to 0. -/
theorem static_cache_reporting :
    (∀ s : TransformStorage,
      FrameCache.get_latest_timestamp (.staticCache s) = none) ∧
    (∀ s : TransformStorage,
      FrameCache.get_latest_timestamp_and_parent (.staticCache s) =
        some (0, s.frame_id)) ∧
    (∀ (frames : List FrameCache) (target_id fuel frame_id : ℕ)
        (seen : List (ℕ × Int × Int × ℕ)) (po pl : Int) (s : TransformStorage),
      frames.get? frame_id = some (.staticCache s) →
      frame_id ≠ 0 → frame_id ≠ target_id →
      ctb_source_walk frames target_id (fuel + 1) frame_id seen po pl =
        ctb_source_walk frames target_id fuel s.frame_id
          ((frame_id, po, pl, s.frame_id) :: seen) (max po 0) (min pl 0)) ∧
    (∀ (frames : List FrameCache) (seen : List (ℕ × Int × Int × ℕ))
        (fuel frame_id : ℕ) (po pl : Int) (s : TransformStorage),
      frames.get? frame_id = some (.staticCache s) →
      frame_id ≠ 0 → map_get seen frame_id = none →
      ctb_target_walk frames seen (fuel + 1) frame_id po pl =
        ctb_target_walk frames seen fuel s.frame_id (max po 0) (min pl 0)) := by
  refine ⟨fun s => rfl, fun s => rfl, ?_, ?_⟩
  · intro frames target_id fuel frame_id seen po pl s hget h0 hne
    rw [ctb_source_walk, if_neg h0, hget]
    dsimp only [FrameCache.get_latest_timestamp_and_parent,
      FrameCache.get_oldest_timestamp, Option.getD_some, Option.getD_none]
    rw [if_neg hne]
  · intro frames seen fuel frame_id po pl s hget h0 hmap
    rw [ctb_target_walk, if_neg h0, hmap, hget]
    dsimp only [FrameCache.get_latest_timestamp_and_parent,
      FrameCache.get_oldest_timestamp, Option.getD_some, Option.getD_none]

/-- C2 witness: the reporting on a concrete record and one concrete static
hop in each walk, through the theorem. -/
theorem static_cache_reporting_witness :
    FrameCache.get_latest_timestamp (.staticCache c9rec) = none ∧
    FrameCache.get_latest_timestamp_and_parent (.staticCache c9rec) =
      some (0, c9rec.frame_id) ∧
    ctb_source_walk [FrameCache.timeCache [] 10, .staticCache c9rec] 5
        (3 + 1) 1 [] 0 9 =
      ctb_source_walk [FrameCache.timeCache [] 10, .staticCache c9rec] 5
        3 c9rec.frame_id [(1, 0, 9, c9rec.frame_id)] (max 0 0) (min 9 0) ∧
    ctb_target_walk [FrameCache.timeCache [] 10, .staticCache c9rec] []
        (3 + 1) 1 0 9 =
      ctb_target_walk [FrameCache.timeCache [] 10, .staticCache c9rec] []
        3 c9rec.frame_id (max 0 0) (min 9 0) :=
  ⟨static_cache_reporting.1 c9rec,
   static_cache_reporting.2.1 c9rec,
   static_cache_reporting.2.2.1 [FrameCache.timeCache [] 10, .staticCache c9rec]
     5 3 1 [] 0 9 c9rec (by decide) (by decide) (by decide),
   static_cache_reporting.2.2.2 [FrameCache.timeCache [] 10, .staticCache c9rec]
     [] 3 1 0 9 c9rec (by decide) (by decide) (by decide)⟩

/-! ### C6: the walk cap on a 1001-edge chain. -/

/-- The k-th cache of a chain segment. -/
theorem chainTail_get : ∀ (n base k : ℕ), k < n →
    (chainTail base n).get? k =
      some (.timeCache [chainRec (base + k)] 10) := by
  intro n
  induction n with
  | zero => intro base k hk; omega
  | succ n ih =>
    intro base k hk
    cases k with
    | zero => rfl
    | succ k =>
      show (chainTail (base + 1) n).get? k = _
      rw [ih (base + 1) k (by omega)]
      have h1 : base + 1 + k = base + (k + 1) := by omega
      rw [h1]

/-- The cache of frame k + 2 in the chain buffer. -/
theorem chainFrames_get (k : ℕ) (hk : k < 1001) :
    chainFrames.get? (k + 2) =
      some (.timeCache [chainRec (k + 2)] 10) := by
  show (chainTail 2 1001).get? k = _
  rw [chainTail_get 1001 2 k hk]
  have h1 : 2 + k = k + 2 := by omega
  rw [h1]

/-- Walking the chain toward the root from frame fuel + 1 never reaches
frame c1 before the ancestor walk runs out of permitted depth. -/
theorem gcsa_chain_stuck : ∀ (fuel : ℕ), fuel ≤ 1001 → ∀ (visited : List ℕ),
    gcsa_source_walk chainFrames 1 fuel (fuel + 1) visited = .finished none := by
  intro fuel
  induction fuel with
  | zero => intro _ visited; rfl
  | succ f ih =>
    intro hle visited
    rw [gcsa_source_walk]
    have h0 : ¬ (f + 1 + 1 = 0) := by omega
    rw [if_neg h0]
    have hget : chainFrames.get? (f + 1 + 1) =
        some (.timeCache [chainRec (f + 1 + 1)] 10) :=
      chainFrames_get f (by omega)
    rw [hget]
    dsimp only [FrameCache.get_latest_timestamp_and_parent, List.head?,
      Option.map, Option.getD]
    have hne : ¬ (f + 1 + 1 = 1) := by omega
    rw [if_neg hne]
    exact ih (by omega) ((f + 1 + 1) :: visited)

/-- The bound walk along the chain likewise exhausts its depth before
meeting c1. -/
theorem ctb_chain_stuck : ∀ (fuel : ℕ), fuel ≤ 1001 →
    ∀ (seen : List (ℕ × Int × Int × ℕ)) (po pl : Int),
    ctb_source_walk chainFrames 1 fuel (fuel + 1) seen po pl =
      .finished none := by
  intro fuel
  induction fuel with
  | zero => intro _ seen po pl; rfl
  | succ f ih =>
    intro hle seen po pl
    rw [ctb_source_walk]
    have h0 : ¬ (f + 1 + 1 = 0) := by omega
    rw [if_neg h0]
    have hget : chainFrames.get? (f + 1 + 1) =
        some (.timeCache [chainRec (f + 1 + 1)] 10) :=
      chainFrames_get f (by omega)
    rw [hget]
    dsimp only [FrameCache.get_latest_timestamp_and_parent,
      FrameCache.get_oldest_timestamp, List.head?, List.getLast?,
      Option.map, Option.getD]
    have hne : ¬ (f + 1 + 1 = 1) := by omega
    rw [if_neg hne]
    exact ih (by omega) _ _ _

/-- A lookup between two distinct, registered frame names reduces to the
walk between their ids. -/
theorem lookup_transform_resolves (slerp_fn : Quat → Quat → ℚ → Quat)
    (bc : BufferCore) (tf sf : String) (t : Int) (tid sid : ℕ)
    (htgt : map_get bc.frame_to_id tf = some tid)
    (hnames : ¬ tf = sf)
    (hsrc : map_get bc.frame_to_id sf = some sid) :
    BufferCore.lookup_transform slerp_fn bc tf sf t =
      BufferCore.walk_to_top_parent slerp_fn bc t tid sid := by
  unfold BufferCore.lookup_transform
  rw [htgt]
  dsimp only
  rw [if_neg hnames, hsrc]

/-- When neither the shared-ancestor walk nor (at time 0) the common-bound
walk connects the two frames, walk_to_top_parent reports the
UnknownRelationBetweenFrames error. -/
theorem walk_no_shared_ancestor (slerp_fn : Quat → Quat → ℚ → Quat)
    (bc : BufferCore) (t : Int) (tid sid : ℕ)
    (hids : ¬ sid = tid)
    (hanc : get_closest_shared_ancestor bc.frames_ tid sid = none)
    (hbounds : get_common_time_bounds bc.frames_ tid sid = none) :
    BufferCore.walk_to_top_parent slerp_fn bc t tid sid =
      some (.error (.UnknownRelationBetweenFrames tid sid)) := by
  unfold BufferCore.walk_to_top_parent
  rw [if_neg hids]
  by_cases ht : t = 0
  · rw [if_pos ht]
    rw [hbounds]
  · rw [if_neg ht]
    dsimp only
    rw [hanc]

/-- The depth-capped ancestor walk connects nothing along the chain. -/
theorem chain_no_ancestor :
    get_closest_shared_ancestor chainBuffer.frames_ 1 1002 = none := by
  unfold get_closest_shared_ancestor
  have hz : ¬ ((1 : ℕ) = 0 ∨ (1002 : ℕ) = 0) := by decide
  have hne : ¬ ((1 : ℕ) = 1002) := by decide
  rw [if_neg hz, if_neg hne]
  have hwalk : gcsa_source_walk chainBuffer.frames_ 1 (MAX_GRAPH_DEPTH + 1)
      1002 [] = GcsaSourceResult.finished none :=
    gcsa_chain_stuck 1001 (by norm_num) []
  rw [hwalk]

/-- The depth-capped bound walk likewise finds no common interval. -/
theorem chain_no_bounds :
    get_common_time_bounds chainBuffer.frames_ 1 1002 = none := by
  unfold get_common_time_bounds
  have hz : ¬ ((1 : ℕ) = 0 ∨ (1002 : ℕ) = 0) := by decide
  have hne : ¬ ((1 : ℕ) = 1002) := by decide
  rw [if_neg hz, if_neg hne]
  have hwalk : ctb_source_walk chainBuffer.frames_ 1 (MAX_GRAPH_DEPTH + 1)
      1002 [] 0 U64_MAX = CtbSourceResult.finished none :=
    ctb_chain_stuck 1001 (by norm_num) [] 0 U64_MAX
  rw [hwalk]

/-- C6: on the buffer holding the 1001-edge chain c1 -> ... -> c1002, a
lookup from c1 to c1002 at any time returns the
UnknownRelationBetweenFrames error: both the common-bound walk (time 0) and
the shared-ancestor walk (any other time) abort at the 1000-hop depth cap
before reaching c1. -/
theorem chain_walk_capped (slerp_fn : Quat → Quat → ℚ → Quat) (t : Int) :
    BufferCore.lookup_transform slerp_fn chainBuffer "c1" "c1002" t =
      some (.error (.UnknownRelationBetweenFrames 1 1002)) := by
  have htgt : map_get chainBuffer.frame_to_id "c1" = some 1 := by decide
  have hsrc : map_get chainBuffer.frame_to_id "c1002" = some 1002 := by decide
  have hnames : ¬ (("c1" : String) = "c1002") := by decide
  have hids : ¬ ((1002 : ℕ) = 1) := by decide
  rw [lookup_transform_resolves slerp_fn chainBuffer "c1" "c1002" t 1 1002
    htgt hnames hsrc]
  exact walk_no_shared_ancestor slerp_fn chainBuffer t 1 1002 hids
    chain_no_ancestor chain_no_bounds

end Tf2
